import Mathlib

/-!
# binstubs

A shallow embedding of `main.go` of `github.com/brasic/binstubs` and a verification of its
specification.

* Go strings are modelled as lists of characters (`Str`); byte sequences that are not valid
  UTF-8 are outside the model.
* The two regular expressions of the program are values of a small regular-expression type and
  are run by a backtracking matcher, which is the leftmost-first semantics that the Go `regexp`
  package documents for `FindStringSubmatch`.
* The file system is a finite-map-like function from cleaned relative paths to nodes, each path
  naming a file or directory of its own; permission bits and write failures are outside the
  model.  A panic is an explicit result next to the world it leaves behind.
* Names of the working directory that are symbolic links are added by `LinkedWorld`, with the
  run `mainLinked`; without links it is the run `main`.
-/

namespace Binstubs

/-- Go strings, as sequences of characters. -/
abbrev Str := List Char

/-! ## Character classes of the two patterns -/

/-- The class `\s` of RE2 syntax, `[\t\n\f\r ]`. -/
def isSpace (c : Char) : Bool :=
  c == '\t' || c == '\n' || c == '\x0c' || c == '\r' || c == ' '

/-- The class `\w` of RE2 syntax, `[0-9A-Za-z_]`. -/
def isWord (c : Char) : Bool :=
  c.isAlphanum || c == '_'

/-- The class `[^"]`; a negated class also matches a newline. -/
def notQuote (c : Char) : Bool :=
  c != '"'

/-- The class `.` without the `s` flag: every character except the newline. -/
def anyChar (c : Char) : Bool :=
  c != '\n'

/-- A class holding the single character `c`. -/
def isChar (c : Char) : Char → Bool :=
  fun x => x == c

/-! ## Regular expressions -/

/-- The fragment of RE2 syntax that `lineRe` and `commentRe` are written in.  Every repetition
in the two patterns is applied to a single character class, and is greedy. -/
inductive Regex where
  /-- The empty pattern. -/
  | eps : Regex
  /-- One character of a class. -/
  | cls (p : Char → Bool) : Regex
  /-- Greedy `x*` over a class. -/
  | star (p : Char → Bool) : Regex
  /-- Greedy `x+` over a class. -/
  | plus (p : Char → Bool) : Regex
  /-- Greedy `x?` over a class. -/
  | opt (p : Char → Bool) : Regex
  /-- Capturing group number `i`. -/
  | group (i : Nat) (r : Regex) : Regex
  /-- Concatenation. -/
  | cat (r s : Regex) : Regex

/-- A literal character. -/
def Regex.lit (c : Char) : Regex :=
  Regex.cls (isChar c)

/-- A literal string. -/
def Regex.str : Str → Regex
  | [] => Regex.eps
  | c :: t => Regex.cat (Regex.lit c) (Regex.str t)

/-- Concatenation of a sequence of patterns. -/
def Regex.seq : List Regex → Regex
  | [] => Regex.eps
  | r :: rs => Regex.cat r (Regex.seq rs)

/-- Number of capturing groups (`NumSubexp`). -/
def Regex.numSubexp : Regex → Nat
  | Regex.group _ r => r.numSubexp + 1
  | Regex.cat r s => r.numSubexp + s.numSubexp
  | _ => 0

/-- Text captured so far by each group; a group that has not taken part holds `""`. -/
abbrev Caps := Nat → Str

/-- Record the text of group `i`. -/
def setCap (cs : Caps) (i : Nat) (v : Str) : Caps :=
  fun j => if j = i then v else cs j

/-- Greedy repetition of a class followed by the continuation `k`: the longest run is tried
first, then the shorter ones. -/
def starLoop {α : Type} (p : Char → Bool) (k : Str → Option α) : Str → Option α
  | [] => k []
  | c :: t =>
    if p c then
      match starLoop p k t with
      | some r => some r
      | none => k (c :: t)
    else k (c :: t)

/-- Backtracking match of `r` at the start of `s`, followed by the continuation `k` on the rest
of the input.  The first success in backtracking order is returned. -/
def matchRe {α : Type} : Regex → Str → Caps → (Str → Caps → Option α) → Option α
  | Regex.eps, s, cs, k => k s cs
  | Regex.cls p, s, cs, k =>
    match s with
    | [] => none
    | c :: t => if p c then k t cs else none
  | Regex.star p, s, cs, k => starLoop p (fun rest => k rest cs) s
  | Regex.plus p, s, cs, k =>
    match s with
    | [] => none
    | c :: t => if p c then starLoop p (fun rest => k rest cs) t else none
  | Regex.opt p, s, cs, k =>
    match s with
    | [] => k [] cs
    | c :: t =>
      if p c then
        match k t cs with
        | some r => some r
        | none => k (c :: t) cs
      else k (c :: t) cs
  | Regex.group i r, s, cs, k =>
    matchRe r s cs (fun rest cs1 => k rest (setCap cs1 i (s.take (s.length - rest.length))))
  | Regex.cat r1 r2, s, cs, k =>
    matchRe r1 s cs (fun rest cs1 => matchRe r2 rest cs1 k)

/-- The submatch slice of a match that starts at the beginning of `s`: the whole match followed
by the text of every group. -/
def matchAt (re : Regex) (s : Str) : Option (List Str) :=
  matchRe re s (fun _ => []) (fun rest cs =>
    some (s.take (s.length - rest.length) :: (List.range re.numSubexp).map (fun i => cs (i + 1))))

/-- `(*Regexp).FindStringSubmatch`: the submatches of the leftmost match, the empty slice (`nil`)
when there is none. -/
def FindStringSubmatch (re : Regex) : Str → List Str
  | [] => (matchAt re []).getD []
  | c :: t =>
    match matchAt re (c :: t) with
    | some m => m
    | none => FindStringSubmatch re t

/-- `lineRe`: the pattern `\s+_\s"([^"]+)"\s*/?/?\s*(.*)`. -/
def lineRe : Regex :=
  Regex.seq [Regex.plus isSpace, Regex.lit '_', Regex.cls isSpace, Regex.lit '"',
    Regex.group 1 (Regex.plus notQuote), Regex.lit '"', Regex.star isSpace,
    Regex.opt (isChar '/'), Regex.opt (isChar '/'), Regex.star isSpace,
    Regex.group 2 (Regex.star anyChar)]

/-- `commentRe`: the pattern `binstub:(\w+)=?"?([^"]*)"?\s*`. -/
def commentRe : Regex :=
  Regex.seq [Regex.str "binstub:".toList, Regex.group 1 (Regex.plus isWord),
    Regex.opt (isChar '='), Regex.opt (isChar '"'), Regex.group 2 (Regex.star notQuote),
    Regex.opt (isChar '"'), Regex.star isSpace]

/-! ## Comment options -/

/-- `CommentOption`: the generator options given by a trailing comment. -/
structure CommentOption where
  Ignore : Bool
  Args : Str
deriving DecidableEq

/-- `parseComment`.  A panic is the error of the result, with the panic value as message. -/
def parseComment (comment : Str) : Except Str CommentOption :=
  let opt : CommentOption := ⟨false, []⟩
  let ms := FindStringSubmatch commentRe comment
  if ms.length > 1 then
    if ms.getD 1 [] = "ignore".toList then
      Except.ok ⟨true, opt.Args⟩
    else if ms.getD 1 [] = "args".toList then
      if ms.length ≠ 3 then
        Except.error ("bad syntax for comment ".toList ++ comment)
      else
        Except.ok ⟨opt.Ignore, ms.getD 2 []⟩
    else
      Except.error ("bad syntax for comment ".toList ++ comment)
  else
    Except.ok opt

/-! ## The script template -/

/-- `TemplateArgs`: the values passed to the template. -/
structure TemplateArgs where
  GoRunCommand : Str
  Module : Str
deriving DecidableEq

/-- A node of a parsed `text/template`: literal text, or an action printing a field of the
data.  `text/template` inserts the field's text as it is. -/
inductive TplNode where
  | text (s : Str) : TplNode
  | field (f : TemplateArgs → Str) : TplNode

/-- What a node prints. -/
def TplNode.render (args : TemplateArgs) : TplNode → Str
  | TplNode.text s => s
  | TplNode.field f => f args

/-- `tpl`: the parsed script template. -/
def tpl : List TplNode :=
  [TplNode.text "#!/bin/sh\n# Code generated by binstubs. DO NOT EDIT.\n\nexec ".toList,
   TplNode.field TemplateArgs.GoRunCommand,
   TplNode.text " ".toList,
   TplNode.field TemplateArgs.Module,
   TplNode.text " \"$@\"\n".toList]

/-- `(*Template).Execute`: the bytes written to the writer, node after node. -/
def Execute (t : List TplNode) (args : TemplateArgs) : Str :=
  (t.map (TplNode.render args)).flatten

/-! ## Paths (`path/filepath`, Unix) -/

/-- Split a string at every occurrence of `sep`. -/
def splitSep (sep : Char) : Str → List Str
  | [] => [[]]
  | c :: t =>
    if c = sep then [] :: splitSep sep t
    else
      match splitSep sep t with
      | [] => [[c]]
      | e :: es => (c :: e) :: es

/-- `filepath.Base`: the last element of the path, after removing trailing slashes; `.` for the
empty path and `/` for a path of slashes only. -/
def Base (path : Str) : Str :=
  if path = [] then ".".toList
  else
    let stripped := path.rdropWhile (fun c => c == '/')
    let last := stripped.rtakeWhile (fun c => c != '/')
    if last = [] then "/".toList else last

/-- One path element of `filepath.Clean`, on the stack `out` of the elements kept so far (last
one first): empty and `.` elements are dropped, `..` removes the element before it, and is kept
only where there is nothing to remove in a path that is not rooted. -/
def cleanStep (rooted : Bool) (out : List Str) (e : Str) : List Str :=
  if e = [] ∨ e = ".".toList then out
  else if e = "..".toList then
    match out with
    | [] => if rooted then [] else [e]
    | top :: rest => if top = "..".toList then e :: out else rest
  else e :: out

/-- `filepath.Clean`: the shortest path equivalent to `path` by lexical processing. -/
def Clean (path : Str) : Str :=
  let rooted : Bool := path.head? = some '/'
  let out := ((splitSep '/' path).foldl (cleanStep rooted) []).reverse
  let s := (if rooted then "/".toList else []) ++ "/".toList.intercalate out
  if s = [] then ".".toList else s

/-- `filepath.Join`: the elements from the first non-empty one on, joined by slashes and
cleaned. -/
def Join : List Str → Str
  | [] => []
  | e :: es => if e = [] then Join es else Clean ("/".toList.intercalate (e :: es))

/-- `filepath.Dir`: the path without its last element, cleaned. -/
def Dir (path : Str) : Str :=
  Clean (path.rdropWhile (fun c => c != '/'))

/-! ## The world of a run -/

/-- A node of the file system. -/
inductive Node where
  | file (content : Str) : Node
  | dir : Node
deriving DecidableEq

/-- The file system seen from the working directory: what each cleaned relative path names. -/
abbrev FS := Str → Option Node

/-- The file system with `path` naming `n`. -/
def FS.set (fs : FS) (path : Str) (n : Node) : FS :=
  fun q => if q = path then some n else fs q

/-- Whether `path` names a directory; the working directory `.` always is one. -/
def FS.isDir (fs : FS) (path : Str) : Bool :=
  path = ".".toList ∨ fs path = some Node.dir

/-- The state a run acts on: the file system and the text printed so far on the two output
streams. -/
structure World where
  fs : FS
  stdout : Str
  stderr : Str

/-- `os.OpenFile(path, O_WRONLY|O_CREATE|O_TRUNC, 0755)`: the file system with `path` an empty
file, or the error.  The file is created when absent and emptied when present; opening fails on
a directory and under a parent that is not a directory. -/
def OpenFile (fs : FS) (path : Str) : Except Str FS :=
  if fs.isDir path then
    Except.error ("open ".toList ++ path ++ ": is a directory".toList)
  else if fs.isDir (Dir path) then
    Except.ok (fs.set path (Node.file []))
  else
    match fs (Dir path) with
    | none => Except.error ("open ".toList ++ path ++ ": no such file or directory".toList)
    | some _ => Except.error ("open ".toList ++ path ++ ": not a directory".toList)

/-- A write on the file opened at `path`: the bytes are added at the end of its content. -/
def FS.write (fs : FS) (path : Str) (bytes : Str) : FS :=
  match fs path with
  | some (Node.file content) => fs.set path (Node.file (content ++ bytes))
  | _ => fs

/-- `os.MkdirAll(path, os.ModePerm)` for a one-element path under the working directory: the
directory is created when nothing is there; the error (something else than a directory is
there) changes nothing. -/
def MkdirAll (fs : FS) (path : Str) : FS × Option Str :=
  match fs path with
  | none => (fs.set path Node.dir, none)
  | some Node.dir => (fs, none)
  | some (Node.file _) => (fs, some ("mkdir ".toList ++ path ++ ": not a directory".toList))

/-! ## The generator -/

/-- `generateBinstub`: the world after the call, and the panic value when the call panics. -/
def generateBinstub (w : World) (module comment : Str) : World × Option Str :=
  match parseComment comment with
  | Except.error e => (w, some e)
  | Except.ok options =>
    if options.Ignore then (w, none)
    else
      let binstubName := Base module
      let binstubPath := Join ["bin".toList, binstubName]
      match OpenFile w.fs binstubPath with
      | Except.error e => (w, some e)
      | Except.ok fs1 =>
        let tplArgs : TemplateArgs :=
          if options.Args ≠ [] then ⟨"go run ".toList ++ options.Args, module⟩
          else ⟨"go run".toList, module⟩
        let fs2 := fs1.write binstubPath (Execute tpl tplArgs)
        (⟨fs2, w.stdout, w.stderr ++ "wrote ".toList ++ binstubPath ++ "\n".toList⟩, none)

/-! ## The scanner and `main` -/

/-- `bufio.MaxScanTokenSize`. -/
def MaxScanTokenSize : Nat := 64 * 1024

/-- Length of a string in bytes (UTF-8). -/
def byteLen (s : Str) : Nat :=
  (s.map Char.utf8Size).sum

/-- The helper `dropCR` of `bufio.ScanLines`: one trailing carriage return is removed. -/
def dropCR (l : Str) : Str :=
  if l.getLast? = some '\r' then l.dropLast else l

/-- The tokens a `bufio.Scanner` with the split function `ScanLines` yields on the pieces of the
input between newlines: a last piece that is empty is no line, and the scan stops (the loop of
`main` does not look at the error) at a line that does not fit the buffer of
`MaxScanTokenSize` bytes. -/
def scanTokens : List Str → List Str
  | [] => []
  | [l] => if l = [] ∨ MaxScanTokenSize ≤ byteLen l then [] else [dropCR l]
  | l :: m :: rest =>
    if MaxScanTokenSize ≤ byteLen l then [] else dropCR l :: scanTokens (m :: rest)

/-- The lines the scanner yields on the content of a file. -/
def ScanLines (content : Str) : List Str :=
  scanTokens (splitSep '\n' content)

/-- How a run ends: a return from `main` is `exit 0`. -/
inductive Outcome where
  | exit (code : Nat) : Outcome
  | panic (msg : Str) : Outcome
deriving DecidableEq

/-- The state of the loop of `main`: the world, the counter, and the panic that stopped it. -/
structure LoopState where
  world : World
  count : Nat
  panic : Option Str

/-- The body of the loop of `main` on one line. -/
def scanStep (w : World) (count : Nat) (line : Str) : LoopState :=
  let ms := FindStringSubmatch lineRe line
  if ms.length > 1 then
    let r := generateBinstub w (ms.getD 1 []) (ms.getD 2 [])
    ⟨r.1, count + 1, r.2⟩
  else ⟨w, count, none⟩

/-- The loop of `main` over the lines of the scanner; a panic ends it. -/
def scanLoop : List Str → World → Nat → LoopState
  | [], w, count => ⟨w, count, none⟩
  | line :: rest, w, count =>
    match scanStep w count line with
    | ⟨w1, count1, none⟩ => scanLoop rest w1 count1
    | st => st

/-- `main`: the world at the end of the run and how it ends.  `os.Open` succeeds on a directory
too, and the scanner then yields no line. -/
def main (w : World) : World × Outcome :=
  match w.fs "tools.go".toList with
  | none => (w, Outcome.panic "open tools.go: no such file or directory".toList)
  | some node =>
    let lines :=
      match node with
      | Node.file content => ScanLines content
      | Node.dir => []
    let w1 : World := ⟨(MkdirAll w.fs "bin".toList).1, w.stdout, w.stderr⟩
    match scanLoop lines w1 0 with
    | ⟨w2, _, some e⟩ => (w2, Outcome.panic e)
    | ⟨w2, count, none⟩ =>
      if count = 0 then
        (⟨w2.fs, w2.stdout ++ "no imports found in tools.go\n".toList, w2.stderr⟩, Outcome.exit 1)
      else (w2, Outcome.exit 0)

/-! ## Example worlds -/

/-- A working directory that holds the directory `bin` and nothing else. -/
def emptyBin : World :=
  ⟨fun p => if p = "bin".toList then some Node.dir else none, [], []⟩

/-- A working directory that holds the given `tools.go` and nothing else. -/
def withTools (content : Str) : World :=
  ⟨fun p => if p = "tools.go".toList then some (Node.file content) else none, [], []⟩


/-- A working directory in which `bin` is a regular file. -/
def binIsFile : World :=
  ⟨fun p => if p = "bin".toList then some (Node.file "old".toList) else none, [], []⟩

/-! ## Symbolic links in the working directory -/

/-- A world in which names of the working directory may be symbolic links: `links` gives, for
each such name, the cleaned path from the working directory of what the link leads to, a path
free of links; the file system of `world` holds what the paths free of links name.  A run
neither makes nor removes a link. -/
structure LinkedWorld where
  world : World
  links : List (Str × Str)

/-- The path free of links that `path` leads to: a link at its first element is followed. -/
def resolve (links : List (Str × Str)) (path : Str) : Str :=
  match splitSep '/' path with
  | [] => path
  | first :: rest =>
    match links.lookup first with
    | some target => Join (target :: rest)
    | none => path

/-- `os.OpenFile(name, O_WRONLY|O_CREATE|O_TRUNC, 0755)` for a name that leads to `path`: what
`OpenFile` does at `path`, with the name in the error. -/
def OpenFileAt (fs : FS) (name path : Str) : Except Str FS :=
  if fs.isDir path then
    Except.error ("open ".toList ++ name ++ ": is a directory".toList)
  else if fs.isDir (Dir path) then
    Except.ok (fs.set path (Node.file []))
  else
    match fs (Dir path) with
    | none => Except.error ("open ".toList ++ name ++ ": no such file or directory".toList)
    | some _ => Except.error ("open ".toList ++ name ++ ": not a directory".toList)

/-- `os.MkdirAll(path, os.ModePerm)` for a name of the working directory: a name that is a link
is left as it is (it leads to a directory, or the call fails), another name is handled as by
`MkdirAll`. -/
def MkdirAllLinked (links : List (Str × Str)) (fs : FS) (path : Str) : FS :=
  match links.lookup path with
  | some _ => fs
  | none => (MkdirAll fs path).1

/-- `generateBinstub` in a world with links: the file is opened and written where the stub path
leads to, and reported under the stub path. -/
def generateBinstubLinked (links : List (Str × Str)) (w : World) (module comment : Str) :
    World × Option Str :=
  match parseComment comment with
  | Except.error e => (w, some e)
  | Except.ok options =>
    if options.Ignore then (w, none)
    else
      let binstubName := Base module
      let binstubPath := Join ["bin".toList, binstubName]
      match OpenFileAt w.fs binstubPath (resolve links binstubPath) with
      | Except.error e => (w, some e)
      | Except.ok fs1 =>
        let tplArgs : TemplateArgs :=
          if options.Args ≠ [] then ⟨"go run ".toList ++ options.Args, module⟩
          else ⟨"go run".toList, module⟩
        let fs2 := fs1.write (resolve links binstubPath) (Execute tpl tplArgs)
        (⟨fs2, w.stdout, w.stderr ++ "wrote ".toList ++ binstubPath ++ "\n".toList⟩, none)

/-- The body of the loop of `main` in a world with links. -/
def scanStepLinked (links : List (Str × Str)) (w : World) (count : Nat) (line : Str) :
    LoopState :=
  let ms := FindStringSubmatch lineRe line
  if ms.length > 1 then
    let r := generateBinstubLinked links w (ms.getD 1 []) (ms.getD 2 [])
    ⟨r.1, count + 1, r.2⟩
  else ⟨w, count, none⟩

/-- The loop of `main` in a world with links. -/
def scanLoopLinked (links : List (Str × Str)) : List Str → World → Nat → LoopState
  | [], w, count => ⟨w, count, none⟩
  | line :: rest, w, count =>
    match scanStepLinked links w count line with
    | ⟨w1, count1, none⟩ => scanLoopLinked links rest w1 count1
    | st => st

/-- The size of the scanner's buffer at its first read (`startBufSize` of `bufio`). -/
def startBufSize : Nat := 4096

/-- Length in bytes of the file at `path`; 0 where there is no file. -/
def fileSize (fs : FS) (path : Str) : Nat :=
  match fs path with
  | some (Node.file content) => byteLen content
  | _ => 0

/-- Whether the file at `tools` holds at most `limit` bytes after every step of the loop. -/
def staysWithin (links : List (Str × Str)) (tools : Str) (limit : Nat) :
    List Str → World → Nat → Bool
  | [], _, _ => true
  | line :: rest, w, count =>
    match scanStepLinked links w count line with
    | ⟨w1, count1, none⟩ =>
      decide (fileSize w1.fs tools ≤ limit) && staysWithin links tools limit rest w1 count1
    | ⟨w1, _, some _⟩ => decide (fileSize w1.fs tools ≤ limit)

/-- `main` in a world with links.  With links a stub path can lead to `tools.go` itself, and the
run then rewrites the file it is reading.  The scanner holds the whole of a `tools.go` of at most
`startBufSize` bytes from its first read, and its next read, at the old end of the file, finds
the end of the file as long as the file has not grown beyond that: in that case, and without
links, the lines of the loop are those of the content at the start, and the result is given;
otherwise the run is outside this model and the result is `none`. -/
def mainLinked (lw : LinkedWorld) : Option (LinkedWorld × Outcome) :=
  match lw.world.fs (resolve lw.links "tools.go".toList) with
  | none => some (lw, Outcome.panic "open tools.go: no such file or directory".toList)
  | some node =>
    let content :=
      match node with
      | Node.file content => content
      | Node.dir => []
    let lines :=
      match node with
      | Node.file content => ScanLines content
      | Node.dir => []
    let w1 : World :=
      ⟨MkdirAllLinked lw.links lw.world.fs "bin".toList, lw.world.stdout, lw.world.stderr⟩
    if lw.links = [] ∨ (byteLen content ≤ startBufSize ∧
        staysWithin lw.links (resolve lw.links "tools.go".toList) (byteLen content) lines w1 0
          = true) then
      match scanLoopLinked lw.links lines w1 0 with
      | ⟨w2, _, some e⟩ => some (⟨w2, lw.links⟩, Outcome.panic e)
      | ⟨w2, count, none⟩ =>
        if count = 0 then
          some (⟨⟨w2.fs, w2.stdout ++ "no imports found in tools.go\n".toList, w2.stderr⟩,
            lw.links⟩, Outcome.exit 1)
        else some (⟨w2, lw.links⟩, Outcome.exit 0)
    else none

/-- A working directory that holds `tools.go` and the name `bin` as a symbolic link to the
working directory itself. -/
def binLinkedToDot (content : Str) : LinkedWorld :=
  ⟨withTools content, [("bin".toList, ".".toList)]⟩

/-! # Lemmas

## Lists -/

theorem take_length_sub (w rest : Str) :
    (w ++ rest).take ((w ++ rest).length - rest.length) = w := by
  simp

/-! ## The matcher -/

theorem starLoop_no_start {α : Type} (p : Char → Bool) (k : Str → Option α) (rest : Str)
    (hrest : ∀ c t, rest = c :: t → p c = false) : starLoop p k rest = k rest := by
  cases rest with
  | nil => rfl
  | cons c t => simp [starLoop, hrest c t rfl]

theorem starLoop_greedy {α : Type} (p : Char → Bool) (k : Str → Option α) (w rest : Str) (r : α)
    (hw : ∀ c ∈ w, p c = true) (hrest : ∀ c t, rest = c :: t → p c = false)
    (hk : k rest = some r) : starLoop p k (w ++ rest) = some r := by
  induction w with
  | nil => simpa [starLoop_no_start p k rest hrest] using hk
  | cons a w ih =>
    have ha : p a = true := hw a (List.mem_cons_self _ _)
    have ih1 := ih (fun c hc => hw c (List.mem_cons_of_mem _ hc))
    simp [starLoop, ha, ih1]

theorem starLoop_some {α : Type} (p : Char → Bool) (k : Str → Option α) (s : Str) (r : α)
    (h : starLoop p k s = some r) :
    ∃ w rest, s = w ++ rest ∧ (∀ c ∈ w, p c = true) ∧ k rest = some r := by
  induction s with
  | nil => exact ⟨[], [], rfl, by simp, h⟩
  | cons a t ih =>
    by_cases ha : p a = true
    · cases hi : starLoop p k t with
      | none =>
        simp [starLoop, ha, hi] at h
        exact ⟨[], a :: t, rfl, by simp, h⟩
      | some r1 =>
        simp [starLoop, ha, hi] at h
        subst h
        obtain ⟨w, rest, hs, hw, hk⟩ := ih hi
        refine ⟨a :: w, rest, by simp [hs], ?_, hk⟩
        intro c hc
        rcases List.mem_cons.mp hc with rfl | hc
        · exact ha
        · exact hw c hc
    · simp [starLoop, ha] at h
      exact ⟨[], a :: t, rfl, by simp, h⟩

theorem starLoop_total {α : Type} (p : Char → Bool) (k : Str → Option α) (Q : α → Prop)
    (hk : ∀ s, ∃ r, k s = some r ∧ Q r) (s : Str) : ∃ r, starLoop p k s = some r ∧ Q r := by
  induction s with
  | nil => exact hk []
  | cons a t ih =>
    obtain ⟨r1, h1, q1⟩ := ih
    by_cases ha : p a = true
    · exact ⟨r1, by simp [starLoop, ha, h1], q1⟩
    · simpa [starLoop, ha] using hk (a :: t)


theorem matchRe_str_append {α : Type} (l t : Str) (cs : Caps) (k : Str → Caps → Option α) :
    matchRe (Regex.str l) (l ++ t) cs k = k t cs := by
  induction l with
  | nil => rfl
  | cons a l ih => simp [Regex.str, Regex.lit, matchRe, isChar, ih]

theorem matchRe_str_some {α : Type} (l s : Str) (cs : Caps) (k : Str → Caps → Option α) (r : α)
    (h : matchRe (Regex.str l) s cs k = some r) : ∃ t, s = l ++ t ∧ k t cs = some r := by
  induction l generalizing s with
  | nil => exact ⟨s, rfl, h⟩
  | cons a l ih =>
    cases s with
    | nil => simp [Regex.str, Regex.lit, matchRe] at h
    | cons c t =>
      by_cases hc : c = a
      · subst hc
        simp [Regex.str, Regex.lit, matchRe, isChar] at h
        obtain ⟨t1, ht, hk⟩ := ih t h
        exact ⟨t1, by simp [ht], hk⟩
      · simp [Regex.str, Regex.lit, matchRe, isChar, hc] at h

theorem matchRe_plus_some {α : Type} (p : Char → Bool) (s : Str) (cs : Caps)
    (k : Str → Caps → Option α) (r : α) (h : matchRe (Regex.plus p) s cs k = some r) :
    ∃ c w rest, s = c :: w ++ rest ∧ p c = true ∧ (∀ x ∈ w, p x = true) ∧ k rest cs = some r := by
  cases s with
  | nil => simp [matchRe] at h
  | cons c t =>
    by_cases hc : p c = true
    · simp [matchRe, hc] at h
      obtain ⟨w, rest, ht, hw, hk⟩ := starLoop_some p _ t r h
      exact ⟨c, w, rest, by simp [ht], hc, hw, hk⟩
    · simp [matchRe, hc] at h

theorem matchRe_plus_greedy {α : Type} (p : Char → Bool) (w rest : Str) (cs : Caps)
    (k : Str → Caps → Option α) (r : α) (hne : w ≠ []) (hw : ∀ c ∈ w, p c = true)
    (hrest : ∀ c t, rest = c :: t → p c = false) (hk : k rest cs = some r) :
    matchRe (Regex.plus p) (w ++ rest) cs k = some r := by
  cases w with
  | nil => exact absurd rfl hne
  | cons a w =>
    have ha : p a = true := hw a (List.mem_cons_self _ _)
    simp only [List.cons_append, matchRe, ha, if_true]
    exact starLoop_greedy p _ w rest r (fun c hc => hw c (List.mem_cons_of_mem _ hc)) hrest hk

theorem matchRe_star_greedy {α : Type} (p : Char → Bool) (w rest : Str) (cs : Caps)
    (k : Str → Caps → Option α) (r : α) (hw : ∀ c ∈ w, p c = true)
    (hrest : ∀ c t, rest = c :: t → p c = false) (hk : k rest cs = some r) :
    matchRe (Regex.star p) (w ++ rest) cs k = some r := by
  simp only [matchRe]
  exact starLoop_greedy p _ w rest r hw hrest hk

theorem matchRe_opt_total {α : Type} (p : Char → Bool) (k : Str → Caps → Option α)
    (Q : α → Prop) (s : Str) (cs : Caps) (hk : ∀ s, ∃ r, k s cs = some r ∧ Q r) :
    ∃ r, matchRe (Regex.opt p) s cs k = some r ∧ Q r := by
  cases s with
  | nil => simpa [matchRe] using hk []
  | cons c t =>
    by_cases hc : p c = true
    · obtain ⟨r, hr, q⟩ := hk t
      exact ⟨r, by simp [matchRe, hc, hr], q⟩
    · simpa [matchRe, hc] using hk (c :: t)

theorem matchRe_star_total {α : Type} (p : Char → Bool) (k : Str → Caps → Option α)
    (Q : α → Prop) (s : Str) (cs : Caps) (hk : ∀ s, ∃ r, k s cs = some r ∧ Q r) :
    ∃ r, matchRe (Regex.star p) s cs k = some r ∧ Q r := by
  simp only [matchRe]
  exact starLoop_total p _ Q hk s

theorem matchRe_cat {α : Type} (r1 r2 : Regex) (s : Str) (cs : Caps)
    (k : Str → Caps → Option α) :
    matchRe (Regex.cat r1 r2) s cs k = matchRe r1 s cs (fun rest cs1 => matchRe r2 rest cs1 k) :=
  rfl

theorem matchRe_group {α : Type} (i : Nat) (r : Regex) (s : Str) (cs : Caps)
    (k : Str → Caps → Option α) :
    matchRe (Regex.group i r) s cs k =
      matchRe r s cs (fun rest cs1 => k rest (setCap cs1 i (s.take (s.length - rest.length)))) :=
  rfl

theorem matchRe_eps {α : Type} (s : Str) (cs : Caps) (k : Str → Caps → Option α) :
    matchRe Regex.eps s cs k = k s cs :=
  rfl

/-- The part of `commentRe` after the keyword succeeds on every input, and leaves the keyword as
it is. -/
theorem commentRe_tail_total (whole : Str → Str) (s : Str) (cs : Caps) :
    ∃ w arg, matchRe (Regex.seq [Regex.opt (isChar '='), Regex.opt (isChar '"'),
        Regex.group 2 (Regex.star notQuote), Regex.opt (isChar '"'), Regex.star isSpace]) s cs
      (fun rest cs1 => some [whole rest, cs1 1, cs1 2]) = some [w, cs 1, arg] := by
  have key : ∃ r, matchRe (Regex.seq [Regex.opt (isChar '='), Regex.opt (isChar '"'),
        Regex.group 2 (Regex.star notQuote), Regex.opt (isChar '"'), Regex.star isSpace]) s cs
      (fun rest cs1 => some [whole rest, cs1 1, cs1 2]) = some r ∧
        (∃ w arg, r = [w, cs 1, arg]) := by
    simp only [Regex.seq]
    rw [matchRe_cat]
    apply matchRe_opt_total
    intro s1
    rw [matchRe_cat]
    apply matchRe_opt_total
    intro s2
    rw [matchRe_cat, matchRe_group]
    apply matchRe_star_total
    intro s3
    rw [matchRe_cat]
    apply matchRe_opt_total
    intro s4
    rw [matchRe_cat]
    apply matchRe_star_total
    intro s5
    rw [matchRe_eps]
    exact ⟨_, rfl, whole s5, (s2.take (s2.length - s3.length)), by simp [setCap]⟩
  obtain ⟨r, hr, w, arg, rfl⟩ := key
  exact ⟨w, arg, hr⟩

/-- A match of `commentRe` starts with `binstub:` and a word character. -/
theorem commentRe_matchAt_some (t : Str) (m : List Str) (h : matchAt commentRe t = some m) :
    ∃ x q, t = "binstub:".toList ++ x :: q ∧ isWord x = true := by
  unfold matchAt commentRe at h
  simp only [Regex.seq] at h
  rw [matchRe_cat] at h
  obtain ⟨t1, ht, h1⟩ := matchRe_str_some _ _ _ _ _ h
  rw [matchRe_cat, matchRe_group] at h1
  obtain ⟨c, w, rest, ht1, hc, -, -⟩ := matchRe_plus_some _ _ _ _ _ h1
  exact ⟨c, w ++ rest, by rw [ht, ht1]; simp, hc⟩

/-- At a directive, `commentRe` matches and its first group is the keyword. -/
theorem commentRe_matchAt_keyword (kw rest : Str) (hne : kw ≠ [])
    (hkw : ∀ c ∈ kw, isWord c = true) (hrest : ∀ c t, rest = c :: t → isWord c = false) :
    ∃ w arg, matchAt commentRe ("binstub:".toList ++ kw ++ rest) = some [w, kw, arg] := by
  unfold matchAt commentRe
  simp only [Regex.seq]
  rw [matchRe_cat, List.append_assoc, matchRe_str_append, matchRe_cat, matchRe_group]
  obtain ⟨w, arg, h⟩ := commentRe_tail_total
    (fun r => List.take (("binstub:".toList ++ (kw ++ rest)).length - r.length)
      ("binstub:".toList ++ (kw ++ rest))) rest
    (setCap (fun _ => []) 1 ((kw ++ rest).take ((kw ++ rest).length - rest.length)))
  refine ⟨w, arg, ?_⟩
  apply matchRe_plus_greedy _ _ _ _ _ _ hne hkw hrest
  simp only [Regex.seq, Regex.numSubexp, List.range, List.range.loop, List.map] at h ⊢
  rw [h]
  simp [setCap]


theorem matchRe_opt_take {α : Type} (p : Char → Bool) (c : Char) (t : Str) (cs : Caps)
    (k : Str → Caps → Option α) (r : α) (hc : p c = true) (hk : k t cs = some r) :
    matchRe (Regex.opt p) (c :: t) cs k = some r := by
  simp [matchRe, hc, hk]

theorem matchRe_opt_skip {α : Type} (p : Char → Bool) (s : Str) (cs : Caps)
    (k : Str → Caps → Option α) (hs : ∀ c t, s = c :: t → p c = false) :
    matchRe (Regex.opt p) s cs k = k s cs := by
  cases s with
  | nil => rfl
  | cons c t => simp [matchRe, hs c t rfl]

theorem matchRe_lit_cons {α : Type} (c : Char) (t : Str) (cs : Caps)
    (k : Str → Caps → Option α) : matchRe (Regex.lit c) (c :: t) cs k = k t cs := by
  simp [Regex.lit, matchRe, isChar]

theorem matchRe_cls_cons {α : Type} (p : Char → Bool) (c : Char) (t : Str) (cs : Caps)
    (k : Str → Caps → Option α) (hc : p c = true) : matchRe (Regex.cls p) (c :: t) cs k = k t cs := by
  simp [matchRe, hc]

theorem matchRe_cls_some {α : Type} (p : Char → Bool) (s : Str) (cs : Caps)
    (k : Str → Caps → Option α) (r : α) (h : matchRe (Regex.cls p) s cs k = some r) :
    ∃ c t, s = c :: t ∧ p c = true ∧ k t cs = some r := by
  cases s with
  | nil => simp [matchRe] at h
  | cons c t =>
    by_cases hc : p c = true
    · exact ⟨c, t, rfl, hc, by simpa [matchRe, hc] using h⟩
    · simp [matchRe, hc] at h

/-! ## The leftmost match -/

theorem find_of_matchAt (re : Regex) (s : Str) (m : List Str) (h : matchAt re s = some m) :
    FindStringSubmatch re s = m := by
  cases s with
  | nil => simp [FindStringSubmatch, h]
  | cons c t => simp [FindStringSubmatch, h]

theorem find_leftmost (re : Regex) (pre s : Str) (m : List Str)
    (hpre : ∀ p q, pre = p ++ q → q ≠ [] → matchAt re (q ++ s) = none)
    (h : matchAt re s = some m) : FindStringSubmatch re (pre ++ s) = m := by
  induction pre with
  | nil => exact find_of_matchAt re s m h
  | cons a pre ih =>
    have h0 : matchAt re (a :: pre ++ s) = none := hpre [] (a :: pre) rfl (by simp)
    have ih1 := ih (fun p q hpq hq => hpre (a :: p) q (by simp [hpq]) hq)
    simp only [List.cons_append] at h0 ⊢
    simp [FindStringSubmatch, h0, ih1]

theorem find_none (re : Regex) (s : Str) (h : ∀ p q, s = p ++ q → matchAt re q = none) :
    FindStringSubmatch re s = [] := by
  induction s with
  | nil => simp [FindStringSubmatch, h [] [] rfl]
  | cons a t ih =>
    have h0 := h [] (a :: t) rfl
    have ih1 := ih (fun p q hpq => h (a :: p) q (by simp [hpq]))
    simp [FindStringSubmatch, h0, ih1]

theorem find_some (re : Regex) (s : Str) (h : FindStringSubmatch re s ≠ []) :
    ∃ p q, s = p ++ q ∧ matchAt re q = some (FindStringSubmatch re s) := by
  induction s with
  | nil =>
    cases hm : matchAt re [] with
    | none => simp [FindStringSubmatch, hm] at h
    | some m => exact ⟨[], [], rfl, by simp [FindStringSubmatch, hm]⟩
  | cons a t ih =>
    cases hm : matchAt re (a :: t) with
    | none =>
      have e : FindStringSubmatch re (a :: t) = FindStringSubmatch re t := by
        simp [FindStringSubmatch, hm]
      rw [e] at h ⊢
      obtain ⟨p, q, hpq, hq⟩ := ih h
      exact ⟨a :: p, q, by simp [hpq], hq⟩
    | some m => exact ⟨[], a :: t, rfl, by simp [FindStringSubmatch, hm]⟩

/-! ## Directives -/

/-- The leftmost match of `commentRe` is at the first directive of the comment, and its first
group is the keyword of that directive. -/
theorem find_first_directive (pre kw rest : Str) (hne : kw ≠ [])
    (hkw : ∀ c ∈ kw, isWord c = true) (hrest : ∀ c t, rest = c :: t → isWord c = false)
    (hfirst : ∀ p x q, pre ++ "binstub:".toList ++ kw ++ rest = p ++ "binstub:".toList ++ x :: q →
      isWord x = true → pre.length ≤ p.length) :
    ∃ w arg, FindStringSubmatch commentRe (pre ++ "binstub:".toList ++ kw ++ rest) =
      [w, kw, arg] := by
  obtain ⟨w, arg, h⟩ := commentRe_matchAt_keyword kw rest hne hkw hrest
  refine ⟨w, arg, ?_⟩
  have e : pre ++ "binstub:".toList ++ kw ++ rest = pre ++ ("binstub:".toList ++ kw ++ rest) := by
    simp
  rw [e]
  apply find_leftmost _ _ _ _ _ h
  intro p q hpq hq
  cases hm : matchAt commentRe (q ++ ("binstub:".toList ++ kw ++ rest)) with
  | none => rfl
  | some m =>
    exfalso
    obtain ⟨x, q1, hx, hw⟩ := commentRe_matchAt_some _ _ hm
    have h1 := hfirst p x q1 (by rw [e, hpq, List.append_assoc, hx]; simp) hw
    have h2 : 0 < q.length := List.length_pos.mpr hq
    rw [hpq, List.length_append] at h1
    omega

/-- A comment without a directive is not matched by `commentRe`. -/
theorem find_no_directive (c : Str)
    (h : ∀ p x q, c = p ++ "binstub:".toList ++ x :: q → isWord x = false) :
    FindStringSubmatch commentRe c = [] := by
  apply find_none
  intro p q hpq
  cases hm : matchAt commentRe q with
  | none => rfl
  | some m =>
    exfalso
    obtain ⟨x, q1, hx, hw⟩ := commentRe_matchAt_some _ _ hm
    have := h p x q1 (by rw [hpq, hx]; simp)
    rw [this] at hw
    exact Bool.false_ne_true hw

theorem parseComment_of_find (c w kw arg : Str)
    (h : FindStringSubmatch commentRe c = [w, kw, arg]) :
    parseComment c =
      if kw = "ignore".toList then Except.ok ⟨true, []⟩
      else if kw = "args".toList then Except.ok ⟨false, arg⟩
      else Except.error ("bad syntax for comment ".toList ++ c) := by
  simp [parseComment, h]

theorem parseComment_of_find_nil (c : Str) (h : FindStringSubmatch commentRe c = []) :
    parseComment c = Except.ok ⟨false, []⟩ := by
  simp [parseComment, h]


/-! ## The arguments directive -/

theorem isWord_args : ∀ c ∈ "args".toList, isWord c = true := by decide

theorem commentRe_matchAt_args_quoted (A : Str) (hA : ∀ c ∈ A, notQuote c = true) :
    matchAt commentRe ("binstub:args=\"".toList ++ A ++ "\"".toList) =
      some ["binstub:args=\"".toList ++ A ++ "\"".toList, "args".toList, A] := by
  have e : "binstub:args=\"".toList ++ A ++ "\"".toList =
      "binstub:".toList ++ ("args".toList ++ ('=' :: '"' :: (A ++ ['"']))) := by
    simp
  rw [e]
  unfold matchAt commentRe
  simp only [Regex.seq]
  rw [matchRe_cat, matchRe_str_append, matchRe_cat, matchRe_group]
  apply matchRe_plus_greedy _ _ _ _ _ _ (by decide) isWord_args (by intro c t h; cases h; rfl)
  rw [matchRe_cat]
  apply matchRe_opt_take _ _ _ _ _ _ rfl
  rw [matchRe_cat]
  apply matchRe_opt_take _ _ _ _ _ _ rfl
  rw [matchRe_cat, matchRe_group]
  apply matchRe_star_greedy _ _ _ _ _ _ hA (by intro c t h; cases h; rfl)
  rw [matchRe_cat]
  apply matchRe_opt_take _ _ _ _ _ _ rfl
  rw [matchRe_cat]
  simp [matchRe, starLoop, Regex.numSubexp, setCap, List.range, List.range.loop]

theorem commentRe_matchAt_args_bare (A : Str) (hA : ∀ c ∈ A, notQuote c = true) :
    matchAt commentRe ("binstub:args=".toList ++ A) =
      some ["binstub:args=".toList ++ A, "args".toList, A] := by
  have e : "binstub:args=".toList ++ A =
      "binstub:".toList ++ ("args".toList ++ ('=' :: (A ++ []))) := by
    simp
  rw [e]
  unfold matchAt commentRe
  simp only [Regex.seq]
  rw [matchRe_cat, matchRe_str_append, matchRe_cat, matchRe_group]
  apply matchRe_plus_greedy _ _ _ _ _ _ (by decide) isWord_args (by intro c t h; cases h; rfl)
  rw [matchRe_cat]
  apply matchRe_opt_take _ _ _ _ _ _ rfl
  rw [matchRe_cat, matchRe_opt_skip _ _ _ _ (by
    intro c t h
    cases A with
    | nil => simp at h
    | cons a A' =>
      simp at h
      have := hA a (List.mem_cons_self _ _)
      rw [h.1] at this
      simpa [notQuote, isChar] using this)]
  rw [matchRe_cat, matchRe_group]
  apply matchRe_star_greedy _ _ _ _ _ _ hA (by intro c t h; cases h)
  rw [matchRe_cat]
  simp [matchRe, starLoop, Regex.numSubexp, setCap, List.range, List.range.loop]

/-! ## Calls of the generator -/

theorem write_after_open (fs : FS) (path bytes : Str) :
    (fs.set path (Node.file [])).write path bytes = fs.set path (Node.file bytes) := by
  funext q
  by_cases hq : q = path <;> simp [FS.write, FS.set, hq]

theorem OpenFile_ok (fs fs1 : FS) (path : Str) (h : OpenFile fs path = Except.ok fs1) :
    fs1 = fs.set path (Node.file []) := by
  unfold OpenFile at h
  split at h
  · cases h
  · split at h
    · cases h; rfl
    · split at h <;> cases h

theorem Execute_tpl (args : TemplateArgs) :
    Execute tpl args =
      "#!/bin/sh\n# Code generated by binstubs. DO NOT EDIT.\n\nexec ".toList ++ args.GoRunCommand ++
        " ".toList ++ args.Module ++ " \"$@\"\n".toList := by
  simp [Execute, tpl, TplNode.render]

theorem generateBinstub_ignore (w : World) (m c a : Str)
    (h : parseComment c = Except.ok ⟨true, a⟩) : generateBinstub w m c = (w, none) := by
  simp [generateBinstub, h]

theorem generateBinstub_error (w : World) (m c e : Str)
    (h : parseComment c = Except.error e) : generateBinstub w m c = (w, some e) := by
  simp [generateBinstub, h]

theorem generateBinstub_open_error (w : World) (m c a e : Str)
    (h : parseComment c = Except.ok ⟨false, a⟩)
    (ho : OpenFile w.fs (Join ["bin".toList, Base m]) = Except.error e) :
    generateBinstub w m c = (w, some e) := by
  unfold generateBinstub
  simp only [h, ho]
  simp

theorem generateBinstub_write (w : World) (m c a : Str) (fs1 : FS)
    (h : parseComment c = Except.ok ⟨false, a⟩)
    (ho : OpenFile w.fs (Join ["bin".toList, Base m]) = Except.ok fs1) :
    generateBinstub w m c =
      (⟨w.fs.set (Join ["bin".toList, Base m])
          (Node.file ("#!/bin/sh\n# Code generated by binstubs. DO NOT EDIT.\n\nexec ".toList ++
            (if a = [] then "go run".toList else "go run ".toList ++ a) ++ " ".toList ++ m ++
            " \"$@\"\n".toList)),
        w.stdout, w.stderr ++ "wrote ".toList ++ Join ["bin".toList, Base m] ++ "\n".toList⟩,
       none) := by
  have e1 := OpenFile_ok _ _ _ ho
  subst e1
  by_cases ha : a = []
  · subst ha
    unfold generateBinstub
    simp only [h, ho]
    simp [write_after_open, Execute_tpl]
  · unfold generateBinstub
    simp only [h, ho]
    simp [write_after_open, Execute_tpl, ha]


/-! ## Stub paths -/

theorem splitSep_no_sep (sep : Char) (s : Str) (h : sep ∉ s) : splitSep sep s = [s] := by
  induction s with
  | nil => rfl
  | cons a t ih =>
    have ha : a ≠ sep := fun e => h (by simp [e])
    have ht : sep ∉ t := fun e => h (List.mem_cons_of_mem _ e)
    simp [splitSep, ha, ih ht]

theorem Base_last (pre s : Str) (hpre : pre = [] ∨ pre.getLast? = some '/') (hs : '/' ∉ s)
    (hne : s ≠ []) : Base (pre ++ s) = s := by
  have h1 : (pre ++ s).rdropWhile (fun c => c == '/') = pre ++ s := by
    rw [List.rdropWhile_eq_self_iff]
    intro hl
    rw [List.getLast_append_of_ne_nil hne]
    have hm : s.getLast hne ∈ s := List.getLast_mem hne
    have : s.getLast hne ≠ '/' := fun e => hs (e ▸ hm)
    simpa using this
  have h2 : (pre ++ s).rtakeWhile (fun c => c != '/') = s := by
    unfold List.rtakeWhile
    rw [List.reverse_append, List.takeWhile_append_of_pos]
    · have : pre.reverse.takeWhile (fun c => c != '/') = [] := by
        rcases hpre with h | h
        · simp [h]
        · cases hr : pre.reverse with
          | nil => rfl
          | cons a t =>
            have : pre.getLast? = some a := by
              rw [List.getLast?_eq_head?_reverse, hr]; rfl
            rw [h] at this
            cases this
            simp
      rw [this]
      simp
    · intro a ha
      have : a ≠ '/' := fun e => hs (e ▸ List.mem_reverse.mp ha)
      simpa using this
  have h3 : pre ++ s ≠ [] := by simp [hne]
  unfold Base
  simp only [h1, h2]
  simp [hne]

theorem Join_bin (s : Str) (hs : '/' ∉ s) (hne : s ≠ []) (hdot : s ≠ ".".toList)
    (hdotdot : s ≠ "..".toList) : Join ["bin".toList, s] = "bin/".toList ++ s := by
  have e : splitSep '/' ('b' :: 'i' :: 'n' :: '/' :: s) = ["bin".toList, s] := by
    simp [splitSep, splitSep_no_sep '/' s hs]
  have hdot1 : ¬ s = ['.'] := hdot
  have hdotdot1 : ¬ s = ['.', '.'] := hdotdot
  simp [Join, Clean, e, cleanStep, hne, hdot1, hdotdot1, List.intercalate]


/-! ## Import lines -/

theorem matchRe_lit_some {α : Type} (a : Char) (s : Str) (cs : Caps)
    (k : Str → Caps → Option α) (r : α) (h : matchRe (Regex.lit a) s cs k = some r) :
    ∃ t, s = a :: t ∧ k t cs = some r := by
  obtain ⟨c, t, hs, hc, hk⟩ := matchRe_cls_some _ _ _ _ _ h
  have : c = a := by simpa [isChar] using hc
  subst this
  exact ⟨t, hs, hk⟩

/-- A match of `lineRe` starts with whitespace, `_`, one whitespace character and a quoted
non-empty string. -/
theorem lineRe_matchAt_some (t : Str) (m : List Str) (h : matchAt lineRe t = some m) :
    ∃ ws b M q, t = ws ++ '_' :: b :: '"' :: M ++ '"' :: q ∧ ws ≠ [] ∧
      (∀ c ∈ ws, isSpace c = true) ∧ isSpace b = true ∧ M ≠ [] ∧ (∀ c ∈ M, notQuote c = true) := by
  unfold matchAt lineRe at h
  simp only [Regex.seq] at h
  rw [matchRe_cat] at h
  obtain ⟨c, ws, r1, e1, hc, hws, h1⟩ := matchRe_plus_some _ _ _ _ _ h
  rw [matchRe_cat] at h1
  obtain ⟨r2, e2, h2⟩ := matchRe_lit_some _ _ _ _ _ h1
  rw [matchRe_cat] at h2
  obtain ⟨b, r3, e3, hb, h3⟩ := matchRe_cls_some _ _ _ _ _ h2
  rw [matchRe_cat] at h3
  obtain ⟨r4, e4, h4⟩ := matchRe_lit_some _ _ _ _ _ h3
  rw [matchRe_cat, matchRe_group] at h4
  obtain ⟨x, M, r5, e5, hx, hM, h5⟩ := matchRe_plus_some _ _ _ _ _ h4
  rw [matchRe_cat] at h5
  obtain ⟨r6, e6, -⟩ := matchRe_lit_some _ _ _ _ _ h5
  refine ⟨c :: ws, b, x :: M, r6, ?_, by simp, ?_, hb, by simp, ?_⟩
  · rw [e1, e2, e3, e4, e5, e6]; simp
  · intro y hy
    rcases List.mem_cons.mp hy with rfl | hy
    · exact hc
    · exact hws y hy
  · intro y hy
    rcases List.mem_cons.mp hy with rfl | hy
    · exact hx
    · exact hM y hy

/-- The match of `lineRe` on a declaration followed by whitespace, the marker `//`, whitespace
and a text. -/
theorem lineRe_matchAt_marker (ws M sp sp2 text : Str) (b : Char) (hne : ws ≠ [])
    (hws : ∀ c ∈ ws, isSpace c = true) (hb : isSpace b = true) (hMne : M ≠ [])
    (hM : ∀ c ∈ M, notQuote c = true) (hsp : ∀ c ∈ sp, isSpace c = true)
    (hsp2 : ∀ c ∈ sp2, isSpace c = true) (htext : ∀ c t, text = c :: t → isSpace c = false)
    (hnl : ∀ c ∈ text, anyChar c = true) :
    matchAt lineRe (ws ++ '_' :: b :: '"' :: M ++ '"' :: sp ++ '/' :: '/' :: sp2 ++ text) =
      some [ws ++ '_' :: b :: '"' :: M ++ '"' :: sp ++ '/' :: '/' :: sp2 ++ text, M, text] := by
  have e : ws ++ '_' :: b :: '"' :: M ++ '"' :: sp ++ '/' :: '/' :: sp2 ++ text =
      ws ++ ('_' :: b :: '"' :: (M ++ ('"' :: (sp ++ ('/' :: '/' :: (sp2 ++ (text ++ []))))))) := by
    simp
  rw [e]
  unfold matchAt lineRe
  simp only [Regex.seq]
  rw [matchRe_cat]
  apply matchRe_plus_greedy _ _ _ _ _ _ hne hws (by intro c t h; cases h; rfl)
  rw [matchRe_cat, matchRe_lit_cons, matchRe_cat, matchRe_cls_cons _ _ _ _ _ hb, matchRe_cat,
    matchRe_lit_cons, matchRe_cat, matchRe_group]
  apply matchRe_plus_greedy _ _ _ _ _ _ hMne hM (by intro c t h; cases h; rfl)
  rw [matchRe_cat, matchRe_lit_cons, matchRe_cat]
  apply matchRe_star_greedy _ _ _ _ _ _ hsp (by intro c t h; cases h; rfl)
  rw [matchRe_cat]
  apply matchRe_opt_take _ _ _ _ _ _ rfl
  rw [matchRe_cat]
  apply matchRe_opt_take _ _ _ _ _ _ rfl
  rw [matchRe_cat]
  apply matchRe_star_greedy _ _ _ _ _ _ hsp2 (by
    intro c t h
    cases text with
    | nil => simp at h
    | cons a t1 =>
      simp at h
      rw [← h.1]
      exact htext a t1 rfl)
  rw [matchRe_cat, matchRe_group]
  apply matchRe_star_greedy _ _ _ _ _ _ hnl (by intro c t h; cases h)
  simp [matchRe, Regex.numSubexp, setCap, List.range, List.range.loop]

/-- The match of `lineRe` on a declaration followed by whitespace and a text that starts with
neither whitespace nor a slash. -/
theorem lineRe_matchAt_plain (ws M sp text : Str) (b : Char) (hne : ws ≠ [])
    (hws : ∀ c ∈ ws, isSpace c = true) (hb : isSpace b = true) (hMne : M ≠ [])
    (hM : ∀ c ∈ M, notQuote c = true) (hsp : ∀ c ∈ sp, isSpace c = true)
    (htext : ∀ c t, text = c :: t → isSpace c = false ∧ c ≠ '/')
    (hnl : ∀ c ∈ text, anyChar c = true) :
    matchAt lineRe (ws ++ '_' :: b :: '"' :: M ++ '"' :: sp ++ text) =
      some [ws ++ '_' :: b :: '"' :: M ++ '"' :: sp ++ text, M, text] := by
  have e : ws ++ '_' :: b :: '"' :: M ++ '"' :: sp ++ text =
      ws ++ ('_' :: b :: '"' :: (M ++ ('"' :: (sp ++ ([] ++ (text ++ [])))))) := by
    simp
  have hslash : ∀ c t, [] ++ (text ++ []) = c :: t → isChar '/' c = false := by
    intro c t h
    simp at h
    have := (htext c t h).2
    simpa [isChar] using this
  have hspace : ∀ c t, [] ++ (text ++ []) = c :: t → isSpace c = false := by
    intro c t h
    simp at h
    exact (htext c t h).1
  rw [e]
  unfold matchAt lineRe
  simp only [Regex.seq]
  rw [matchRe_cat]
  apply matchRe_plus_greedy _ _ _ _ _ _ hne hws (by intro c t h; cases h; rfl)
  rw [matchRe_cat, matchRe_lit_cons, matchRe_cat, matchRe_cls_cons _ _ _ _ _ hb, matchRe_cat,
    matchRe_lit_cons, matchRe_cat, matchRe_group]
  apply matchRe_plus_greedy _ _ _ _ _ _ hMne hM (by intro c t h; cases h; rfl)
  rw [matchRe_cat, matchRe_lit_cons, matchRe_cat]
  apply matchRe_star_greedy _ _ _ _ _ _ hsp hspace
  rw [matchRe_cat, matchRe_opt_skip _ _ _ _ hslash, matchRe_cat, matchRe_opt_skip _ _ _ _ hslash,
    matchRe_cat]
  apply matchRe_star_greedy _ _ _ _ _ _ (by simp) (by simpa using hspace)
  rw [matchRe_cat, matchRe_group]
  apply matchRe_star_greedy _ _ _ _ _ _ hnl (by intro c t h; cases h)
  simp [matchRe, Regex.numSubexp, setCap, List.range, List.range.loop]


/-! ## The shape of the submatch slice -/

/-- A successful match ends in the continuation. -/
theorem matchRe_some_cont {α : Type} (r : Regex) : ∀ (s : Str) (cs : Caps)
    (k : Str → Caps → Option α) (x : α), matchRe r s cs k = some x →
    ∃ rest cs1, k rest cs1 = some x := by
  induction r with
  | eps => intro s cs k x h; exact ⟨s, cs, h⟩
  | cls p =>
    intro s cs k x h
    obtain ⟨c, t, -, -, hk⟩ := matchRe_cls_some _ _ _ _ _ h
    exact ⟨t, cs, hk⟩
  | star p =>
    intro s cs k x h
    obtain ⟨w, rest, -, -, hk⟩ := starLoop_some p _ s x h
    exact ⟨rest, cs, hk⟩
  | plus p =>
    intro s cs k x h
    obtain ⟨c, w, rest, -, -, -, hk⟩ := matchRe_plus_some _ _ _ _ _ h
    exact ⟨rest, cs, hk⟩
  | opt p =>
    intro s cs k x h
    cases s with
    | nil => exact ⟨[], cs, h⟩
    | cons c t =>
      by_cases hc : p c = true
      · cases hk : k t cs with
        | none =>
          simp [matchRe, hc, hk] at h
          exact ⟨c :: t, cs, h⟩
        | some y =>
          simp [matchRe, hc, hk] at h
          exact ⟨t, cs, by rw [hk, h]⟩
      · simp [matchRe, hc] at h
        exact ⟨c :: t, cs, h⟩
  | group i r ih =>
    intro s cs k x h
    rw [matchRe_group] at h
    obtain ⟨rest, cs1, hk⟩ := ih _ _ _ _ h
    exact ⟨rest, _, hk⟩
  | cat r1 r2 ih1 ih2 =>
    intro s cs k x h
    rw [matchRe_cat] at h
    obtain ⟨rest, cs1, hk⟩ := ih1 _ _ _ _ h
    exact ih2 _ _ _ _ hk

theorem matchAt_length (re : Regex) (s : Str) (m : List Str) (h : matchAt re s = some m) :
    m.length = re.numSubexp + 1 := by
  obtain ⟨rest, cs1, hk⟩ := matchRe_some_cont _ _ _ _ _ h
  simp at hk
  rw [← hk]
  simp

/-- The slice `FindStringSubmatch` returns is empty or has one entry per group after the whole
match. -/
theorem find_length (re : Regex) (s : Str) :
    FindStringSubmatch re s = [] ∨ (FindStringSubmatch re s).length = re.numSubexp + 1 := by
  by_cases h : FindStringSubmatch re s = []
  · exact Or.inl h
  · obtain ⟨p, q, -, hq⟩ := find_some re s h
    exact Or.inr (matchAt_length _ _ _ hq)

theorem find_lineRe_cases (line : Str) :
    FindStringSubmatch lineRe line = [] ∨
      ∃ whole m c, FindStringSubmatch lineRe line = [whole, m, c] := by
  rcases find_length lineRe line with h | h
  · exact Or.inl h
  · right
    have h3 : (FindStringSubmatch lineRe line).length = 3 := by
      rw [h]; rfl
    match hm : FindStringSubmatch lineRe line, h3 with
    | [a, b, c], _ => exact ⟨a, b, c, rfl⟩

theorem find_commentRe_cases (c : Str) :
    FindStringSubmatch commentRe c = [] ∨
      ∃ whole kw arg, FindStringSubmatch commentRe c = [whole, kw, arg] := by
  rcases find_length commentRe c with h | h
  · exact Or.inl h
  · right
    have h3 : (FindStringSubmatch commentRe c).length = 3 := by
      rw [h]; rfl
    match hm : FindStringSubmatch commentRe c, h3 with
    | [a, b, c], _ => exact ⟨a, b, c, rfl⟩


/-! ## The loop of `main` -/

theorem scanStep_skip (w : World) (n : Nat) (line : Str)
    (h : FindStringSubmatch lineRe line = []) : scanStep w n line = ⟨w, n, none⟩ := by
  simp [scanStep, h]

theorem scanStep_match (w : World) (n : Nat) (line whole m c : Str)
    (h : FindStringSubmatch lineRe line = [whole, m, c]) :
    scanStep w n line = ⟨(generateBinstub w m c).1, n + 1, (generateBinstub w m c).2⟩ := by
  simp [scanStep, h]

theorem scanLoop_cons (line : Str) (rest : List Str) (w : World) (n : Nat)
    (h : (scanLoop (line :: rest) w n).panic = none) :
    (scanStep w n line).panic = none ∧
      scanLoop (line :: rest) w n =
        scanLoop rest (scanStep w n line).world (scanStep w n line).count := by
  rcases hs : scanStep w n line with ⟨w1, n1, p⟩
  cases p with
  | none => simp [scanLoop, hs]
  | some e => simp [scanLoop, hs] at h

/-- A call that writes: the comment parses without the skip option and the call does not
panic. -/
theorem generateBinstub_fs (w : World) (m c a : Str)
    (h : parseComment c = Except.ok ⟨false, a⟩) (hp : (generateBinstub w m c).2 = none) :
    (generateBinstub w m c).1.fs = w.fs.set (Join ["bin".toList, Base m])
      (Node.file (Execute tpl ⟨if a = [] then "go run".toList else "go run ".toList ++ a, m⟩)) := by
  cases ho : OpenFile w.fs (Join ["bin".toList, Base m]) with
  | error e =>
    rw [generateBinstub_open_error w m c a e h ho] at hp
    cases hp
  | ok fs1 =>
    rw [generateBinstub_write w m c a fs1 h ho, Execute_tpl]

/-- What one step of the loop that does not panic does to the file system at a path. -/
theorem scanStep_fs (w : World) (n : Nat) (line P : Str)
    (hp : (scanStep w n line).panic = none)
    (hP : ∀ whole m c a, FindStringSubmatch lineRe line = [whole, m, c] →
      parseComment c = Except.ok ⟨false, a⟩ → Join ["bin".toList, Base m] ≠ P) :
    (scanStep w n line).world.fs P = w.fs P := by
  rcases find_lineRe_cases line with h | ⟨whole, m, c, h⟩
  · rw [scanStep_skip w n line h]
  · rw [scanStep_match w n line whole m c h] at hp ⊢
    simp only at hp ⊢
    cases hc : parseComment c with
    | error e => rw [generateBinstub_error w m c e hc]
    | ok o =>
      rcases o with ⟨ig, a⟩
      cases ig with
      | true => rw [generateBinstub_ignore w m c a hc]
      | false =>
        rw [generateBinstub_fs w m c a hc hp]
        have := hP whole m c a h hc
        unfold FS.set
        rw [if_neg (Ne.symm this)]

/-- Paths that no line of the input writes keep what they name through the loop. -/
theorem scanLoop_frame (lines : List Str) (P : Str) : ∀ (w : World) (n : Nat),
    (scanLoop lines w n).panic = none →
    (∀ line ∈ lines, ∀ whole m c a, FindStringSubmatch lineRe line = [whole, m, c] →
      parseComment c = Except.ok ⟨false, a⟩ → Join ["bin".toList, Base m] ≠ P) →
    (scanLoop lines w n).world.fs P = w.fs P := by
  induction lines with
  | nil => intro w n _ _; rfl
  | cons line rest ih =>
    intro w n hp hP
    obtain ⟨h1, h2⟩ := scanLoop_cons line rest w n hp
    rw [h2] at hp ⊢
    rw [ih _ _ hp (fun l hl => hP l (List.mem_cons_of_mem _ hl))]
    exact scanStep_fs w n line P h1 (hP line (List.mem_cons_self _ _))

/-- The file at an output path holds the script of the last line that writes it. -/
theorem scanLoop_last (l1 l2 : List Str) (line whole m c a : Str)
    (hline : FindStringSubmatch lineRe line = [whole, m, c])
    (hopt : parseComment c = Except.ok ⟨false, a⟩)
    (hlast : ∀ line2 ∈ l2, ∀ whole2 m2 c2 a2, FindStringSubmatch lineRe line2 = [whole2, m2, c2] →
      parseComment c2 = Except.ok ⟨false, a2⟩ →
      Join ["bin".toList, Base m2] ≠ Join ["bin".toList, Base m]) :
    ∀ (w : World) (n : Nat), (scanLoop (l1 ++ line :: l2) w n).panic = none →
    (scanLoop (l1 ++ line :: l2) w n).world.fs (Join ["bin".toList, Base m]) =
      some (Node.file (Execute tpl ⟨if a = [] then "go run".toList else "go run ".toList ++ a, m⟩)) := by
  induction l1 with
  | nil =>
    intro w n hp
    simp only [List.nil_append] at hp ⊢
    obtain ⟨h1, h2⟩ := scanLoop_cons line l2 w n hp
    rw [h2] at hp ⊢
    rw [scanLoop_frame l2 _ _ _ hp hlast]
    rw [scanStep_match w n line whole m c hline] at h1 ⊢
    simp only at h1 ⊢
    rw [generateBinstub_fs w m c a hopt h1]
    unfold FS.set
    rw [if_pos rfl]
  | cons x l1 ih =>
    intro w n hp
    simp only [List.cons_append] at hp ⊢
    obtain ⟨h1, h2⟩ := scanLoop_cons x _ w n hp
    rw [h2] at hp ⊢
    exact ih _ _ hp

/-- A run that ends with an exit: the loop did not panic, and the file system at the end is the
one the loop leaves. -/
theorem main_exit (w w1 : World) (content : Str) (code : Nat)
    (htools : w.fs "tools.go".toList = some (Node.file content))
    (hrun : main w = (w1, Outcome.exit code)) :
    (scanLoop (ScanLines content) ⟨(MkdirAll w.fs "bin".toList).1, w.stdout, w.stderr⟩ 0).panic = none ∧
    w1.fs = (scanLoop (ScanLines content)
      ⟨(MkdirAll w.fs "bin".toList).1, w.stdout, w.stderr⟩ 0).world.fs := by
  unfold main at hrun
  simp only [htools] at hrun
  rcases hs : scanLoop (ScanLines content) ⟨(MkdirAll w.fs "bin".toList).1, w.stdout, w.stderr⟩ 0
    with ⟨w2, cnt, p⟩
  rw [hs] at hrun
  cases p with
  | some e => simp at hrun
  | none =>
    simp only at hrun
    by_cases h0 : cnt = 0
    · simp [h0] at hrun
      refine ⟨rfl, ?_⟩
      rw [← hrun.1]
    · simp [h0] at hrun
      refine ⟨rfl, ?_⟩
      rw [← hrun.1]

/-! ## The cases of a stub path -/

/-- The last element of a path is `.`, `/`, or a non-empty string without a slash. -/
theorem Base_cases (m : Str) :
    Base m = ".".toList ∨ Base m = "/".toList ∨ (Base m ≠ [] ∧ '/' ∉ Base m) := by
  unfold Base
  by_cases hm : m = []
  · simp [hm]
  · simp only [hm, if_false]
    by_cases hl : (m.rdropWhile (fun c => c == '/')).rtakeWhile (fun c => c != '/') = []
    · simp [hl]
    · right; right
      simp only [hl, if_false]
      refine ⟨hl, ?_⟩
      intro hmem
      unfold List.rtakeWhile at hmem
      have := List.mem_takeWhile_imp (List.mem_reverse.mp hmem)
      simp at this

/-- The stub path is the working directory, the output directory, or a direct child of the
output directory named by the last element of the module path. -/
theorem stubPath_cases (m : Str) :
    (Base m = "..".toList ∧ Join ["bin".toList, Base m] = ".".toList) ∨
    ((Base m = ".".toList ∨ Base m = "/".toList) ∧ Join ["bin".toList, Base m] = "bin".toList) ∨
    (Base m ≠ [] ∧ '/' ∉ Base m ∧ Base m ≠ ".".toList ∧ Base m ≠ "..".toList ∧
      Join ["bin".toList, Base m] = "bin/".toList ++ Base m) := by
  rcases Base_cases m with h | h | ⟨h1, h2⟩
  · right; left
    exact ⟨Or.inl h, by rw [h]; decide⟩
  · right; left
    exact ⟨Or.inr h, by rw [h]; decide⟩
  · by_cases hd : Base m = ".".toList
    · right; left
      exact ⟨Or.inl hd, by rw [hd]; decide⟩
    · by_cases hdd : Base m = "..".toList
      · left
        exact ⟨hdd, by rw [hdd]; decide⟩
      · right; right
        exact ⟨h1, h2, hd, hdd, Join_bin _ h2 h1 hd hdd⟩

theorem Dir_bin_child (s : Str) (hs : '/' ∉ s) : Dir ("bin/".toList ++ s) = "bin".toList := by
  have h : ("bin/".toList ++ s).rdropWhile (fun c => c != '/') = "bin/".toList := by
    unfold List.rdropWhile
    rw [List.reverse_append]
    have : (s.reverse ++ "bin/".toList.reverse).dropWhile (fun c => c != '/') =
        "bin/".toList.reverse := by
      induction s using List.reverseRecOn with
      | nil => decide
      | append_singleton t a ih =>
        have ha : a ≠ '/' := fun e => hs (by simp [e])
        have ht : '/' ∉ t := fun e => hs (by simp [e])
        simp only [List.reverse_append, List.reverse_singleton, List.singleton_append,
          List.cons_append, List.dropWhile_cons]
        simp [ha]
        simpa using ih ht
    rw [this]
    simp
  unfold Dir
  rw [h]
  decide

theorem stubPath_ne_tools (m : Str) : Join ["bin".toList, Base m] ≠ "tools.go".toList := by
  rcases stubPath_cases m with ⟨-, h⟩ | ⟨-, h⟩ | ⟨-, -, -, -, h⟩
  · rw [h]; decide
  · rw [h]; decide
  · rw [h]
    intro e
    have : ("bin/".toList ++ Base m).head? = "tools.go".toList.head? := by rw [e]
    simp at this

/-! ## Two file systems with the same directories -/

theorem isDir_congr (X Y : FS) (hd : ∀ Q, X Q = some Node.dir ↔ Y Q = some Node.dir) (Q : Str) :
    X.isDir Q = Y.isDir Q := by
  unfold FS.isDir
  simp only [hd Q]

theorem isDir_false (X : FS) (Q : Str) (h : X.isDir Q = false) :
    Q ≠ ".".toList ∧ X Q ≠ some Node.dir := by
  unfold FS.isDir at h
  simpa using h

/-- Opening a stub path in two file systems with the same directories and with something at
`bin` gives the same error, or succeeds in both. -/
theorem OpenFile_sim (X Y : FS) (m : Str)
    (hd : ∀ Q, X Q = some Node.dir ↔ Y Q = some Node.dir)
    (hx : X "bin".toList ≠ none) (hy : Y "bin".toList ≠ none) :
    (∃ e, OpenFile X (Join ["bin".toList, Base m]) = Except.error e ∧
      OpenFile Y (Join ["bin".toList, Base m]) = Except.error e) ∨
    (X.isDir (Join ["bin".toList, Base m]) = false ∧
      OpenFile X (Join ["bin".toList, Base m]) =
        Except.ok (X.set (Join ["bin".toList, Base m]) (Node.file [])) ∧
      OpenFile Y (Join ["bin".toList, Base m]) =
        Except.ok (Y.set (Join ["bin".toList, Base m]) (Node.file []))) := by
  have hc := isDir_congr X Y hd
  have key : ∀ P : Str, Dir P = ".".toList ∨ Dir P = "bin".toList →
      (∃ e, OpenFile X P = Except.error e ∧ OpenFile Y P = Except.error e) ∨
      (X.isDir P = false ∧ OpenFile X P = Except.ok (X.set P (Node.file [])) ∧
        OpenFile Y P = Except.ok (Y.set P (Node.file []))) := by
    intro P hP
    cases h1 : X.isDir P with
    | true =>
      left
      have h1y : Y.isDir P = true := by rw [← hc P, h1]
      refine ⟨"open ".toList ++ P ++ ": is a directory".toList, ?_, ?_⟩
      · simp only [OpenFile, h1]
        simp
      · simp only [OpenFile, h1y]
        simp
    | false =>
      have h1y : Y.isDir P = false := by rw [← hc P, h1]
      cases h2 : X.isDir (Dir P) with
      | true =>
        right
        have h2y : Y.isDir (Dir P) = true := by rw [← hc (Dir P), h2]
        exact ⟨rfl, by simp [OpenFile, h1, h2], by simp [OpenFile, h1y, h2y]⟩
      | false =>
        left
        have h2y : Y.isDir (Dir P) = false := by rw [← hc (Dir P), h2]
        have hbin : Dir P = "bin".toList := by
          rcases hP with h | h
          · rw [h] at h2
            exact absurd h2 (by simp [FS.isDir])
          · exact h
        cases hxb : X (Dir P) with
        | none => rw [hbin] at hxb; exact absurd hxb hx
        | some nx =>
          cases hyb : Y (Dir P) with
          | none => rw [hbin] at hyb; exact absurd hyb hy
          | some ny =>
            refine ⟨"open ".toList ++ P ++ ": not a directory".toList, ?_, ?_⟩
            · simp only [OpenFile, h1, h2, hxb]
              simp
            · simp only [OpenFile, h1y, h2y, hyb]
              simp
  apply key
  rcases stubPath_cases m with ⟨-, h⟩ | ⟨-, h⟩ | ⟨-, h2, -, -, h⟩
  · rw [h]; left; decide
  · rw [h]; left; decide
  · rw [h]; right; exact Dir_bin_child _ h2

theorem scanLoop_cons_eq (line : Str) (rest : List Str) (w : World) (n : Nat) :
    scanLoop (line :: rest) w n =
      if (scanStep w n line).panic = none then
        scanLoop rest (scanStep w n line).world (scanStep w n line).count
      else scanStep w n line := by
  rcases hs : scanStep w n line with ⟨w1, n1, p⟩
  cases p with
  | none => simp [scanLoop, hs]
  | some e => simp [scanLoop, hs]

theorem set_dir_iff (X : FS) (P Q bytes : Str) (hP : X.isDir P = false) :
    X.set P (Node.file bytes) Q = some Node.dir ↔ X Q = some Node.dir := by
  unfold FS.set
  by_cases hq : Q = P
  · subst hq
    simp [(isDir_false X Q hP).2]
  · simp [hq]

theorem set_ne_none (X : FS) (P Q : Str) (nd : Node) (h : X Q ≠ none) : X.set P nd Q ≠ none := by
  unfold FS.set
  by_cases hq : Q = P
  · simp [hq]
  · simpa [hq] using h

/-- A call of the generator in two worlds with the same directories and with something at `bin`:
the same panic, and either no change in both or the same file written at the same path. -/
theorem generateBinstub_sim (X Y : World) (m c : Str)
    (hd : ∀ Q, X.fs Q = some Node.dir ↔ Y.fs Q = some Node.dir)
    (hx : X.fs "bin".toList ≠ none) (hy : Y.fs "bin".toList ≠ none) :
    (generateBinstub X m c).2 = (generateBinstub Y m c).2 ∧
    (((generateBinstub X m c).1.fs = X.fs ∧ (generateBinstub Y m c).1.fs = Y.fs) ∨
      ((generateBinstub X m c).2 = none ∧
        X.fs.isDir (Join ["bin".toList, Base m]) = false ∧
        ∃ bytes, (generateBinstub X m c).1.fs =
            X.fs.set (Join ["bin".toList, Base m]) (Node.file bytes) ∧
          (generateBinstub Y m c).1.fs =
            Y.fs.set (Join ["bin".toList, Base m]) (Node.file bytes))) := by
  cases hc : parseComment c with
  | error e =>
    rw [generateBinstub_error X m c e hc, generateBinstub_error Y m c e hc]
    exact ⟨rfl, Or.inl ⟨rfl, rfl⟩⟩
  | ok o =>
    rcases o with ⟨ig, a⟩
    cases ig with
    | true =>
      rw [generateBinstub_ignore X m c a hc, generateBinstub_ignore Y m c a hc]
      exact ⟨rfl, Or.inl ⟨rfl, rfl⟩⟩
    | false =>
      rcases OpenFile_sim X.fs Y.fs m hd hx hy with ⟨e, h1, h2⟩ | ⟨h0, h1, h2⟩
      · rw [generateBinstub_open_error X m c a e hc h1, generateBinstub_open_error Y m c a e hc h2]
        exact ⟨rfl, Or.inl ⟨rfl, rfl⟩⟩
      · rw [generateBinstub_write X m c a _ hc h1, generateBinstub_write Y m c a _ hc h2]
        exact ⟨rfl, Or.inr ⟨rfl, h0, _, rfl, rfl⟩⟩

theorem generateBinstub_stdout (w : World) (m c : Str) :
    (generateBinstub w m c).1.stdout = w.stdout := by
  cases hc : parseComment c with
  | error e => rw [generateBinstub_error w m c e hc]
  | ok o =>
    rcases o with ⟨ig, a⟩
    cases ig with
    | true => rw [generateBinstub_ignore w m c a hc]
    | false =>
      cases ho : OpenFile w.fs (Join ["bin".toList, Base m]) with
      | error e => rw [generateBinstub_open_error w m c a e hc ho]
      | ok fs1 => rw [generateBinstub_write w m c a fs1 hc ho]

/-- One step of the loop in two worlds with the same directories and with something at `bin`,
where the second world agrees at every path with the first one or with `F`: the same panic and
counter, and the same relation between the worlds after the step. -/
theorem scanStep_sim (X Y : World) (n : Nat) (line : Str) (F : FS)
    (hd : ∀ Q, X.fs Q = some Node.dir ↔ Y.fs Q = some Node.dir)
    (hx : X.fs "bin".toList ≠ none) (hy : Y.fs "bin".toList ≠ none)
    (hF : ∀ Q, Y.fs Q = X.fs Q ∨ Y.fs Q = F Q) :
    (scanStep X n line).panic = (scanStep Y n line).panic ∧
    (scanStep X n line).count = (scanStep Y n line).count ∧
    (∀ Q, (scanStep X n line).world.fs Q = some Node.dir ↔
      (scanStep Y n line).world.fs Q = some Node.dir) ∧
    (scanStep X n line).world.fs "bin".toList ≠ none ∧
    (scanStep Y n line).world.fs "bin".toList ≠ none ∧
    (∀ Q, (scanStep Y n line).world.fs Q = (scanStep X n line).world.fs Q ∨
      (scanStep Y n line).world.fs Q = F Q) ∧
    (∀ Q, (scanStep X n line).world.fs Q = some Node.dir ↔ X.fs Q = some Node.dir) ∧
    (scanStep X n line).world.fs "tools.go".toList = X.fs "tools.go".toList := by
  rcases find_lineRe_cases line with h | ⟨whole, m, c, h⟩
  · rw [scanStep_skip X n line h, scanStep_skip Y n line h]
    refine ⟨?_, ?_, ?_, ?_, ?_, ?_, ?_, ?_⟩
    · rfl
    · rfl
    · exact hd
    · exact hx
    · exact hy
    · exact hF
    · intro Q; exact Iff.rfl
    · rfl
  · rw [scanStep_match X n line whole m c h, scanStep_match Y n line whole m c h]
    obtain ⟨hp, hcase⟩ := generateBinstub_sim X Y m c hd hx hy
    rcases hcase with ⟨e1, e2⟩ | ⟨-, h0, bytes, e1, e2⟩
    · refine ⟨hp, rfl, ?_, ?_, ?_, ?_, ?_, ?_⟩
      · intro Q; show (generateBinstub X m c).1.fs Q = _ ↔ (generateBinstub Y m c).1.fs Q = _
        rw [e1, e2]; exact hd Q
      · show (generateBinstub X m c).1.fs _ ≠ _
        rw [e1]; exact hx
      · show (generateBinstub Y m c).1.fs _ ≠ _
        rw [e2]; exact hy
      · intro Q; show (generateBinstub Y m c).1.fs Q = (generateBinstub X m c).1.fs Q ∨ _
        rw [e1, e2]; exact hF Q
      · intro Q; show (generateBinstub X m c).1.fs Q = _ ↔ _
        rw [e1]
      · show (generateBinstub X m c).1.fs _ = _
        rw [e1]
    · have h0y : Y.fs.isDir (Join ["bin".toList, Base m]) = false := by
        rw [← isDir_congr X.fs Y.fs hd]; exact h0
      refine ⟨hp, rfl, ?_, ?_, ?_, ?_, ?_, ?_⟩
      · intro Q; show (generateBinstub X m c).1.fs Q = _ ↔ (generateBinstub Y m c).1.fs Q = _
        rw [e1, e2, set_dir_iff X.fs _ Q bytes h0, set_dir_iff Y.fs _ Q bytes h0y]
        exact hd Q
      · show (generateBinstub X m c).1.fs _ ≠ _
        rw [e1]; exact set_ne_none _ _ _ _ hx
      · show (generateBinstub Y m c).1.fs _ ≠ _
        rw [e2]; exact set_ne_none _ _ _ _ hy
      · intro Q; show (generateBinstub Y m c).1.fs Q = (generateBinstub X m c).1.fs Q ∨ _
        rw [e1, e2]
        unfold FS.set
        by_cases hq : Q = Join ["bin".toList, Base m]
        · left; rw [if_pos hq, if_pos hq]
        · rw [if_neg hq, if_neg hq]
          exact hF Q
      · intro Q; show (generateBinstub X m c).1.fs Q = _ ↔ _
        rw [e1]
        exact set_dir_iff X.fs _ Q bytes h0
      · show (generateBinstub X m c).1.fs _ = _
        rw [e1]
        unfold FS.set
        rw [if_neg (Ne.symm (stubPath_ne_tools m))]

/-- The loop in two worlds related as in `scanStep_sim`. -/
theorem scanLoop_sim (lines : List Str) (F : FS) : ∀ (X Y : World) (n : Nat),
    (∀ Q, X.fs Q = some Node.dir ↔ Y.fs Q = some Node.dir) →
    X.fs "bin".toList ≠ none → Y.fs "bin".toList ≠ none →
    (∀ Q, Y.fs Q = X.fs Q ∨ Y.fs Q = F Q) →
    (scanLoop lines X n).panic = (scanLoop lines Y n).panic ∧
    (scanLoop lines X n).count = (scanLoop lines Y n).count ∧
    (∀ Q, (scanLoop lines Y n).world.fs Q = (scanLoop lines X n).world.fs Q ∨
      (scanLoop lines Y n).world.fs Q = F Q) ∧
    (∀ Q, (scanLoop lines X n).world.fs Q = some Node.dir ↔ X.fs Q = some Node.dir) ∧
    (scanLoop lines X n).world.fs "bin".toList ≠ none ∧
    (scanLoop lines X n).world.fs "tools.go".toList = X.fs "tools.go".toList := by
  induction lines with
  | nil =>
    intro X Y n hd hx hy hF
    exact ⟨rfl, rfl, hF, fun _ => Iff.rfl, hx, rfl⟩
  | cons line rest ih =>
    intro X Y n hd hx hy hF
    obtain ⟨s1, s2, s3, s4, s5, s6, s7, s8⟩ := scanStep_sim X Y n line F hd hx hy hF
    rw [scanLoop_cons_eq line rest X n, scanLoop_cons_eq line rest Y n]
    by_cases hp : (scanStep X n line).panic = none
    · have hpy : (scanStep Y n line).panic = none := by rw [← s1]; exact hp
      rw [if_pos hp, if_pos hpy, ← s2]
      obtain ⟨i1, i2, i3, i4, i5, i6⟩ := ih _ _ (scanStep X n line).count s3 s4 s5 s6
      refine ⟨i1, i2, i3, ?_, i5, ?_⟩
      · intro Q
        rw [i4 Q]
        exact s7 Q
      · rw [i6, s8]
    · have hpy : ¬ (scanStep Y n line).panic = none := by rw [← s1]; exact hp
      rw [if_neg hp, if_neg hpy]
      exact ⟨s1, s2, s6, s7, s4, s8⟩

/-! ## The run in terms of the loop -/

theorem MkdirAll_self (fs : FS) (path : Str) : (MkdirAll fs path).1 path ≠ none := by
  unfold MkdirAll
  cases h : fs path with
  | none => simp [FS.set]
  | some nd =>
    cases nd with
    | file content => simp [h]
    | dir => simp [h]

theorem MkdirAll_other (fs : FS) (path Q : Str) (hQ : Q ≠ path) :
    (MkdirAll fs path).1 Q = fs Q := by
  unfold MkdirAll
  cases h : fs path with
  | none => simp [FS.set, hQ]
  | some nd =>
    cases nd with
    | file content => rfl
    | dir => rfl

theorem MkdirAll_present (fs : FS) (path : Str) (h : fs path ≠ none) :
    (MkdirAll fs path).1 = fs := by
  unfold MkdirAll
  cases hp : fs path with
  | none => exact absurd hp h
  | some nd =>
    cases nd with
    | file content => rfl
    | dir => rfl

/-- The run in terms of the loop, when `tools.go` is there. -/
theorem main_eq (w : World) (node : Node) (htools : w.fs "tools.go".toList = some node)
    (lines : List Str)
    (hlines : (∃ content, node = Node.file content ∧ lines = ScanLines content) ∨
      (node = Node.dir ∧ lines = [])) :
    main w =
      match (scanLoop lines ⟨(MkdirAll w.fs "bin".toList).1, w.stdout, w.stderr⟩ 0).panic with
      | some e =>
        ((scanLoop lines ⟨(MkdirAll w.fs "bin".toList).1, w.stdout, w.stderr⟩ 0).world,
          Outcome.panic e)
      | none =>
        if (scanLoop lines ⟨(MkdirAll w.fs "bin".toList).1, w.stdout, w.stderr⟩ 0).count = 0 then
          (⟨(scanLoop lines ⟨(MkdirAll w.fs "bin".toList).1, w.stdout, w.stderr⟩ 0).world.fs,
            (scanLoop lines ⟨(MkdirAll w.fs "bin".toList).1, w.stdout, w.stderr⟩ 0).world.stdout ++
              "no imports found in tools.go\n".toList,
            (scanLoop lines ⟨(MkdirAll w.fs "bin".toList).1, w.stdout, w.stderr⟩ 0).world.stderr⟩,
            Outcome.exit 1)
        else
          ((scanLoop lines ⟨(MkdirAll w.fs "bin".toList).1, w.stdout, w.stderr⟩ 0).world,
            Outcome.exit 0) := by
  unfold main
  rcases hlines with ⟨content, rfl, rfl⟩ | ⟨rfl, rfl⟩
  · simp only [htools]
    generalize scanLoop (ScanLines content) ⟨(MkdirAll w.fs "bin".toList).1, w.stdout, w.stderr⟩ 0
      = st
    rcases st with ⟨w2, cnt, p⟩
    cases p with
    | some e => rfl
    | none => rfl
  · simp only [htools]
    generalize scanLoop [] ⟨(MkdirAll w.fs "bin".toList).1, w.stdout, w.stderr⟩ 0 = st
    rcases st with ⟨w2, cnt, p⟩
    cases p with
    | some e => rfl
    | none => rfl

theorem scanLoop_all_skip (lines : List Str) (w : World) (n : Nat)
    (h : ∀ line ∈ lines, FindStringSubmatch lineRe line = []) :
    scanLoop lines w n = ⟨w, n, none⟩ := by
  induction lines with
  | nil => rfl
  | cons line rest ih =>
    rw [scanLoop_cons_eq, scanStep_skip w n line (h line (List.mem_cons_self _ _))]
    simp only [if_true]
    exact ih (fun l hl => h l (List.mem_cons_of_mem _ hl))

theorem scanStep_stdout (w : World) (n : Nat) (line : Str) :
    (scanStep w n line).world.stdout = w.stdout := by
  rcases find_lineRe_cases line with h | ⟨whole, m, c, h⟩
  · rw [scanStep_skip w n line h]
  · rw [scanStep_match w n line whole m c h]
    exact generateBinstub_stdout w m c

theorem scanStep_count (w : World) (n : Nat) (line : Str) :
    n ≤ (scanStep w n line).count ∧
      (FindStringSubmatch lineRe line ≠ [] → n < (scanStep w n line).count) := by
  rcases find_lineRe_cases line with h | ⟨whole, m, c, h⟩
  · rw [scanStep_skip w n line h]
    exact ⟨Nat.le_refl _, fun hne => absurd h hne⟩
  · rw [scanStep_match w n line whole m c h]
    exact ⟨Nat.le_succ _, fun _ => Nat.lt_succ_self _⟩

theorem scanLoop_stdout (lines : List Str) : ∀ (w : World) (n : Nat),
    (scanLoop lines w n).world.stdout = w.stdout := by
  induction lines with
  | nil => intro w n; rfl
  | cons line rest ih =>
    intro w n
    rw [scanLoop_cons_eq]
    by_cases hp : (scanStep w n line).panic = none
    · rw [if_pos hp, ih, scanStep_stdout]
    · rw [if_neg hp, scanStep_stdout]

theorem scanLoop_count (lines : List Str) : ∀ (w : World) (n : Nat),
    (scanLoop lines w n).panic = none →
    n ≤ (scanLoop lines w n).count ∧
      ((∃ line ∈ lines, FindStringSubmatch lineRe line ≠ []) → n < (scanLoop lines w n).count) := by
  induction lines with
  | nil =>
    intro w n _
    refine ⟨Nat.le_refl _, ?_⟩
    rintro ⟨line, hl, -⟩
    cases hl
  | cons line rest ih =>
    intro w n hp
    obtain ⟨h1, h2⟩ := scanLoop_cons line rest w n hp
    rw [h2] at hp ⊢
    obtain ⟨i1, i2⟩ := ih _ _ hp
    obtain ⟨s1, s2⟩ := scanStep_count w n line
    refine ⟨Nat.le_trans s1 i1, ?_⟩
    rintro ⟨l, hl, hne⟩
    rcases List.mem_cons.mp hl with rfl | hl
    · exact Nat.lt_of_lt_of_le (s2 hne) i1
    · exact Nat.lt_of_le_of_lt s1 (i2 ⟨l, hl, hne⟩)

/-- Lines that are all skipped or ignored leave the world as it is. -/
theorem scanLoop_all_ignore (lines : List Str) : ∀ (w : World) (n : Nat),
    (∀ line ∈ lines, ∀ whole m c, FindStringSubmatch lineRe line = [whole, m, c] →
      ∃ a, parseComment c = Except.ok ⟨true, a⟩) →
    (scanLoop lines w n).world = w ∧ (scanLoop lines w n).panic = none := by
  induction lines with
  | nil => intro w n _; exact ⟨rfl, rfl⟩
  | cons line rest ih =>
    intro w n h
    have hstep : (scanStep w n line).world = w ∧ (scanStep w n line).panic = none := by
      rcases find_lineRe_cases line with hf | ⟨whole, m, c, hf⟩
      · rw [scanStep_skip w n line hf]
        exact ⟨rfl, rfl⟩
      · obtain ⟨a, ha⟩ := h line (List.mem_cons_self _ _) whole m c hf
        rw [scanStep_match w n line whole m c hf, generateBinstub_ignore w m c a ha]
        exact ⟨rfl, rfl⟩
    rw [scanLoop_cons_eq, if_pos hstep.2, hstep.1]
    exact ih w _ (fun l hl => h l (List.mem_cons_of_mem _ hl))

/-! ## A second run -/

/-- The file system at the end of a run is the one the loop leaves. -/
theorem main_fs (w : World) (node : Node) (htools : w.fs "tools.go".toList = some node)
    (lines : List Str)
    (hlines : (∃ content, node = Node.file content ∧ lines = ScanLines content) ∨
      (node = Node.dir ∧ lines = [])) :
    (main w).1.fs =
      (scanLoop lines ⟨(MkdirAll w.fs "bin".toList).1, w.stdout, w.stderr⟩ 0).world.fs := by
  rw [main_eq w node htools lines hlines]
  cases (scanLoop lines ⟨(MkdirAll w.fs "bin".toList).1, w.stdout, w.stderr⟩ 0).panic with
  | some e => rfl
  | none =>
    simp only
    split <;> rfl

/-- How a run ends is decided by the panic and the counter of the loop. -/
theorem main_outcome (w : World) (node : Node) (htools : w.fs "tools.go".toList = some node)
    (lines : List Str)
    (hlines : (∃ content, node = Node.file content ∧ lines = ScanLines content) ∨
      (node = Node.dir ∧ lines = [])) :
    (main w).2 =
      match (scanLoop lines ⟨(MkdirAll w.fs "bin".toList).1, w.stdout, w.stderr⟩ 0).panic with
      | some e => Outcome.panic e
      | none =>
        if (scanLoop lines ⟨(MkdirAll w.fs "bin".toList).1, w.stdout, w.stderr⟩ 0).count = 0 then
          Outcome.exit 1
        else Outcome.exit 0 := by
  rw [main_eq w node htools lines hlines]
  cases (scanLoop lines ⟨(MkdirAll w.fs "bin".toList).1, w.stdout, w.stderr⟩ 0).panic with
  | some e => rfl
  | none =>
    simp only
    split <;> rfl

/-- A second run on the world the first run leaves ends the same way and leaves the same files. -/
theorem main_twice (w : World) :
    (main (main w).1).2 = (main w).2 ∧ (main (main w).1).1.fs = (main w).1.fs := by
  cases htools : w.fs "tools.go".toList with
  | none =>
    have h1 : main w = (w, Outcome.panic "open tools.go: no such file or directory".toList) := by
      unfold main
      simp only [htools]
    rw [h1]
    simp only
    rw [h1]
    exact ⟨rfl, rfl⟩
  | some node =>
    have hl : ∃ lines : List Str,
        (∃ content, node = Node.file content ∧ lines = ScanLines content) ∨
          (node = Node.dir ∧ lines = []) := by
      cases node with
      | file content => exact ⟨ScanLines content, Or.inl ⟨content, rfl, rfl⟩⟩
      | dir => exact ⟨[], Or.inr ⟨rfl, rfl⟩⟩
    obtain ⟨lines, hlines⟩ := hl
    have hA : (MkdirAll w.fs "bin".toList).1 "bin".toList ≠ none := MkdirAll_self _ _
    obtain ⟨-, -, -, a4, a5, a6⟩ := scanLoop_sim lines
      (scanLoop lines ⟨(MkdirAll w.fs "bin".toList).1, w.stdout, w.stderr⟩ 0).world.fs
      ⟨(MkdirAll w.fs "bin".toList).1, w.stdout, w.stderr⟩
      ⟨(MkdirAll w.fs "bin".toList).1, w.stdout, w.stderr⟩ 0
      (fun _ => Iff.rfl) hA hA (fun _ => Or.inl rfl)
    have hfs1 := main_fs w node htools lines hlines
    have htools1 : (main w).1.fs "tools.go".toList = some node := by
      rw [hfs1, a6]
      show (MkdirAll w.fs "bin".toList).1 "tools.go".toList = some node
      rw [MkdirAll_other _ _ _ (by decide), htools]
    have hbin1 : (main w).1.fs "bin".toList ≠ none := by
      rw [hfs1]; exact a5
    have hmk : (MkdirAll (main w).1.fs "bin".toList).1 = (main w).1.fs :=
      MkdirAll_present _ _ hbin1
    obtain ⟨b1, b2, b3, -, -, -⟩ := scanLoop_sim lines
      (scanLoop lines ⟨(MkdirAll w.fs "bin".toList).1, w.stdout, w.stderr⟩ 0).world.fs
      ⟨(MkdirAll w.fs "bin".toList).1, w.stdout, w.stderr⟩
      ⟨(MkdirAll (main w).1.fs "bin".toList).1, (main w).1.stdout, (main w).1.stderr⟩ 0
      (by
        intro Q
        show (MkdirAll w.fs "bin".toList).1 Q = some Node.dir ↔
          (MkdirAll (main w).1.fs "bin".toList).1 Q = some Node.dir
        rw [hmk, hfs1]
        exact (a4 Q).symm)
      hA
      (by
        show (MkdirAll (main w).1.fs "bin".toList).1 "bin".toList ≠ none
        rw [hmk]; exact hbin1)
      (by
        intro Q
        right
        show (MkdirAll (main w).1.fs "bin".toList).1 Q = _
        rw [hmk, hfs1])
    constructor
    · rw [main_outcome (main w).1 node htools1 lines hlines, main_outcome w node htools lines hlines,
        ← b1, ← b2]
    · rw [main_fs (main w).1 node htools1 lines hlines]
      refine Eq.trans ?_ hfs1.symm
      funext Q
      rcases b3 Q with h | h <;> exact h

/-! ## The groups of a recognised line -/

theorem matchRe_opt_some {α : Type} (p : Char → Bool) (s : Str) (cs : Caps)
    (k : Str → Caps → Option α) (r : α) (h : matchRe (Regex.opt p) s cs k = some r) :
    ∃ rest, k rest cs = some r := by
  cases s with
  | nil => exact ⟨[], h⟩
  | cons c t =>
    by_cases hc : p c = true
    · cases hk : k t cs with
      | none =>
        simp [matchRe, hc, hk] at h
        exact ⟨c :: t, h⟩
      | some y =>
        simp [matchRe, hc, hk] at h
        exact ⟨t, by rw [hk, h]⟩
    · simp [matchRe, hc] at h
      exact ⟨c :: t, h⟩

theorem matchRe_star_some {α : Type} (p : Char → Bool) (s : Str) (cs : Caps)
    (k : Str → Caps → Option α) (r : α) (h : matchRe (Regex.star p) s cs k = some r) :
    ∃ w rest, s = w ++ rest ∧ (∀ x ∈ w, p x = true) ∧ k rest cs = some r := by
  simp only [matchRe] at h
  exact starLoop_some p _ s r h

/-- The submatch slice of a match of `lineRe`: the first group is not empty and holds no double
quote. -/
theorem lineRe_matchAt_groups (t : Str) (m : List Str) (h : matchAt lineRe t = some m) :
    ∃ whole M c, m = [whole, M, c] ∧ M ≠ [] ∧ (∀ x ∈ M, notQuote x = true) := by
  unfold matchAt lineRe at h
  simp only [Regex.seq] at h
  rw [matchRe_cat] at h
  obtain ⟨c, ws, r1, e1, hc, hws, h1⟩ := matchRe_plus_some _ _ _ _ _ h
  rw [matchRe_cat] at h1
  obtain ⟨r2, e2, h2⟩ := matchRe_lit_some _ _ _ _ _ h1
  rw [matchRe_cat] at h2
  obtain ⟨b, r3, e3, hb, h3⟩ := matchRe_cls_some _ _ _ _ _ h2
  rw [matchRe_cat] at h3
  obtain ⟨r4, e4, h4⟩ := matchRe_lit_some _ _ _ _ _ h3
  rw [matchRe_cat, matchRe_group] at h4
  obtain ⟨x, M, r5, e5, hx, hM, h5⟩ := matchRe_plus_some _ _ _ _ _ h4
  rw [matchRe_cat] at h5
  obtain ⟨r6, e6, h6⟩ := matchRe_lit_some _ _ _ _ _ h5
  rw [matchRe_cat] at h6
  obtain ⟨w7, r7, e7, -, h7⟩ := matchRe_star_some _ _ _ _ _ h6
  rw [matchRe_cat] at h7
  obtain ⟨r8, h8⟩ := matchRe_opt_some _ _ _ _ _ h7
  rw [matchRe_cat] at h8
  obtain ⟨r9, h9⟩ := matchRe_opt_some _ _ _ _ _ h8
  rw [matchRe_cat] at h9
  obtain ⟨w10, r10, e10, -, h10⟩ := matchRe_star_some _ _ _ _ _ h9
  rw [matchRe_cat, matchRe_group] at h10
  obtain ⟨w11, r11, e11, -, h11⟩ := matchRe_star_some _ _ _ _ _ h10
  rw [matchRe_eps] at h11
  have hcap : List.take (r4.length - r5.length) r4 = x :: M := by
    rw [e5]
    exact take_length_sub (x :: M) r5
  simp only [Regex.numSubexp, List.range, List.range.loop, List.map, setCap] at h11
  simp only [hcap] at h11
  simp at h11
  refine ⟨_, x :: M, _, h11.symm, by simp, ?_⟩
  intro y hy
  rcases List.mem_cons.mp hy with rfl | hy
  · exact hx
  · exact hM y hy

/-- A recognised line: the module path is not empty and holds no double quote. -/
theorem find_lineRe_module (line whole m c : Str)
    (h : FindStringSubmatch lineRe line = [whole, m, c]) : m ≠ [] ∧ '"' ∉ m := by
  obtain ⟨p, q, -, hq⟩ := find_some lineRe line (by rw [h]; simp)
  rw [h] at hq
  obtain ⟨whole1, M, c1, e, hne, hM⟩ := lineRe_matchAt_groups q _ hq
  simp at e
  obtain ⟨-, rfl, -⟩ := e
  refine ⟨hne, ?_⟩
  intro hmem
  have := hM _ hmem
  simp [notQuote] at this

/-! ## A panic in the loop -/

theorem scanLoop_append_none (l1 l2 : List Str) : ∀ (w : World) (n : Nat),
    (scanLoop l1 w n).panic = none →
    scanLoop (l1 ++ l2) w n = scanLoop l2 (scanLoop l1 w n).world (scanLoop l1 w n).count := by
  induction l1 with
  | nil => intro w n _; rfl
  | cons x l1 ih =>
    intro w n hp
    obtain ⟨h1, h2⟩ := scanLoop_cons x l1 w n hp
    rw [h2] at hp ⊢
    rw [List.cons_append, scanLoop_cons_eq, if_pos h1]
    exact ih _ _ hp

/-- The loop up to a recognised line whose comment does not parse: it ends there with the panic
of `parseComment`, in the world the lines before have left. -/
theorem scanLoop_parse_error (l1 l2 : List Str) (line whole m c e : Str) (w : World) (n : Nat)
    (hbefore : (scanLoop l1 w n).panic = none)
    (hline : FindStringSubmatch lineRe line = [whole, m, c])
    (hfail : parseComment c = Except.error e) :
    scanLoop (l1 ++ line :: l2) w n =
      ⟨(scanLoop l1 w n).world, (scanLoop l1 w n).count + 1, some e⟩ := by
  rw [scanLoop_append_none l1 (line :: l2) w n hbefore, scanLoop_cons_eq,
    scanStep_match _ _ line whole m c hline, generateBinstub_error _ m c e hfail]
  simp

/-- What a call of the generator changes is a stub path that is not a directory. -/
theorem generateBinstub_changes (w : World) (m c P : Str)
    (h : (generateBinstub w m c).1.fs P ≠ w.fs P) :
    P = Join ["bin".toList, Base m] ∧ w.fs.isDir P = false := by
  cases hc : parseComment c with
  | error e =>
    rw [generateBinstub_error w m c e hc] at h
    exact absurd rfl h
  | ok o =>
    rcases o with ⟨ig, a⟩
    cases ig with
    | true =>
      rw [generateBinstub_ignore w m c a hc] at h
      exact absurd rfl h
    | false =>
      cases ho : OpenFile w.fs (Join ["bin".toList, Base m]) with
      | error e =>
        rw [generateBinstub_open_error w m c a e hc ho] at h
        exact absurd rfl h
      | ok fs1 =>
        rw [generateBinstub_write w m c a fs1 hc ho] at h
        by_cases hP : P = Join ["bin".toList, Base m]
        · refine ⟨hP, ?_⟩
          rw [hP]
          cases hd : w.fs.isDir (Join ["bin".toList, Base m]) with
          | false => rfl
          | true =>
            unfold OpenFile at ho
            rw [hd] at ho
            simp at ho
        · exfalso
          apply h
          show FS.set _ _ _ P = _
          unfold FS.set
          rw [if_neg hP]

/-- A run leaves `tools.go` as it is. -/
theorem main_tools (w : World) : (main w).1.fs "tools.go".toList = w.fs "tools.go".toList := by
  cases htools : w.fs "tools.go".toList with
  | none =>
    have h1 : main w = (w, Outcome.panic "open tools.go: no such file or directory".toList) := by
      unfold main
      simp only [htools]
    rw [h1]
    exact htools
  | some node =>
    have hl : ∃ lines : List Str,
        (∃ content, node = Node.file content ∧ lines = ScanLines content) ∨
          (node = Node.dir ∧ lines = []) := by
      cases node with
      | file content => exact ⟨ScanLines content, Or.inl ⟨content, rfl, rfl⟩⟩
      | dir => exact ⟨[], Or.inr ⟨rfl, rfl⟩⟩
    obtain ⟨lines, hlines⟩ := hl
    obtain ⟨-, -, -, -, -, a6⟩ := scanLoop_sim lines (fun _ => none)
      ⟨(MkdirAll w.fs "bin".toList).1, w.stdout, w.stderr⟩
      ⟨(MkdirAll w.fs "bin".toList).1, w.stdout, w.stderr⟩ 0
      (fun _ => Iff.rfl) (MkdirAll_self _ _) (MkdirAll_self _ _) (fun _ => Or.inl rfl)
    rw [main_fs w node htools lines hlines, a6]
    show (MkdirAll w.fs "bin".toList).1 "tools.go".toList = some node
    rw [MkdirAll_other _ _ _ (by decide), htools]

theorem scanLoop_panic_before (l1 l2 : List Str) : ∀ (w : World) (n : Nat),
    (scanLoop (l1 ++ l2) w n).panic = none → (scanLoop l1 w n).panic = none := by
  induction l1 with
  | nil => intro w n _; rfl
  | cons x l1 ih =>
    intro w n hp
    rw [List.cons_append] at hp
    obtain ⟨h1, h2⟩ := scanLoop_cons x (l1 ++ l2) w n hp
    rw [h2] at hp
    rw [scanLoop_cons_eq, if_pos h1]
    exact ih _ _ hp

/-! ## Worlds without links -/

theorem resolve_nil (path : Str) : resolve [] path = path := by
  unfold resolve
  cases splitSep '/' path with
  | nil => rfl
  | cons first rest => rfl

theorem OpenFileAt_self (fs : FS) (path : Str) : OpenFileAt fs path path = OpenFile fs path :=
  rfl

theorem generateBinstubLinked_nil (w : World) (m c : Str) :
    generateBinstubLinked [] w m c = generateBinstub w m c := by
  unfold generateBinstubLinked generateBinstub
  simp only [resolve_nil, OpenFileAt_self]

theorem scanStepLinked_nil (w : World) (n : Nat) (line : Str) :
    scanStepLinked [] w n line = scanStep w n line := by
  unfold scanStepLinked scanStep
  simp only [generateBinstubLinked_nil]

theorem scanLoopLinked_nil (lines : List Str) : ∀ (w : World) (n : Nat),
    scanLoopLinked [] lines w n = scanLoop lines w n := by
  induction lines with
  | nil => intro w n; rfl
  | cons line rest ih =>
    intro w n
    unfold scanLoopLinked scanLoop
    rw [scanStepLinked_nil]
    rcases scanStep w n line with ⟨w1, n1, p⟩
    cases p with
    | none => exact ih w1 n1
    | some e => rfl

/-- Without links the run of `mainLinked` is the run of `main`. -/
theorem mainLinked_nil (w : World) :
    mainLinked ⟨w, []⟩ = some (⟨(main w).1, []⟩, (main w).2) := by
  unfold mainLinked main
  simp only [resolve_nil]
  cases w.fs "tools.go".toList with
  | none => rfl
  | some node =>
    have hm : MkdirAllLinked [] w.fs "bin".toList = (MkdirAll w.fs "bin".toList).1 := rfl
    cases node with
    | file content =>
      simp only [true_or, if_true, scanLoopLinked_nil, hm]
      generalize scanLoop (ScanLines content)
        ⟨(MkdirAll w.fs "bin".toList).1, w.stdout, w.stderr⟩ 0 = st
      rcases st with ⟨w2, cnt, p⟩
      cases p with
      | some e => rfl
      | none =>
        simp only
        split <;> rfl
    | dir =>
      simp only [true_or, if_true, scanLoopLinked_nil, hm]
      generalize scanLoop [] ⟨(MkdirAll w.fs "bin".toList).1, w.stdout, w.stderr⟩ 0 = st
      rcases st with ⟨w2, cnt, p⟩
      cases p with
      | some e => rfl
      | none =>
        simp only
        split <;> rfl

/-! # The claims -/


theorem notQuote_of_not_mem (A : Str) (h : '"' ∉ A) : ∀ c ∈ A, notQuote c = true := by
  intro c hc
  have : c ≠ '"' := fun e => h (e ▸ hc)
  simpa [notQuote] using this

theorem anyChar_of_not_mem (A : Str) (h : '\n' ∉ A) : ∀ c ∈ A, anyChar c = true := by
  intro c hc
  have : c ≠ '\n' := fun e => h (e ▸ hc)
  simpa [anyChar] using this

/-- A call that writes leaves at the stub path exactly
`"#!/bin/sh\n# Code generated by binstubs. DO NOT EDIT.\n\nexec " ++ R ++ " " ++ m ++ " \"$@\"\n"`,
where `R` is `go run` for an empty `a` and `"go run " ++ a` otherwise; these are the bytes the
template prints, with `m` and `a` as they are. -/
theorem generateBinstub_bytes (w : World) (m c a : Str) (fs1 : FS)
    (hparse : parseComment c = Except.ok ⟨false, a⟩)
    (hopen : OpenFile w.fs (Join ["bin".toList, Base m]) = Except.ok fs1) :
    (generateBinstub w m c).2 = none ∧
    Execute tpl ⟨if a = [] then "go run".toList else "go run ".toList ++ a, m⟩ =
      "#!/bin/sh\n# Code generated by binstubs. DO NOT EDIT.\n\nexec ".toList ++
        (if a = [] then "go run".toList else "go run ".toList ++ a) ++ " ".toList ++ m ++
        " \"$@\"\n".toList ∧
    (generateBinstub w m c).1.fs (Join ["bin".toList, Base m]) =
      some (Node.file ("#!/bin/sh\n# Code generated by binstubs. DO NOT EDIT.\n\nexec ".toList ++
        (if a = [] then "go run".toList else "go run ".toList ++ a) ++ " ".toList ++ m ++
        " \"$@\"\n".toList)) := by
  rw [generateBinstub_write w m c a fs1 hparse hopen]
  refine ⟨rfl, Execute_tpl _, ?_⟩
  show FS.set _ _ _ _ = _
  unfold FS.set
  rw [if_pos rfl]

/-- C1: when the comment parses to `Ignore = false`, `Args = a` and the stub file can be opened,
the call does not panic and the stub file holds exactly
`"#!/bin/sh\n# Code generated by binstubs. DO NOT EDIT.\n\nexec " ++ R ++ " " ++ m ++ " \"$@\"\n"`,
where `R` is `go run` for an empty `a` and `"go run " ++ a` otherwise; these are the bytes the
template prints, with `m` and `a` as they are. -/
theorem generateBinstub_script (w : World) (m c a : Str) (fs1 : FS)
    (hparse : parseComment c = Except.ok ⟨false, a⟩)
    (hopen : OpenFile w.fs (Join ["bin".toList, Base m]) = Except.ok fs1) :
    (generateBinstub w m c).2 = none ∧
    Execute tpl ⟨if a = [] then "go run".toList else "go run ".toList ++ a, m⟩ =
      "#!/bin/sh\n# Code generated by binstubs. DO NOT EDIT.\n\nexec ".toList ++
        (if a = [] then "go run".toList else "go run ".toList ++ a) ++ " ".toList ++ m ++
        " \"$@\"\n".toList ∧
    (generateBinstub w m c).1.fs (Join ["bin".toList, Base m]) =
      some (Node.file ("#!/bin/sh\n# Code generated by binstubs. DO NOT EDIT.\n\nexec ".toList ++
        (if a = [] then "go run".toList else "go run ".toList ++ a) ++ " ".toList ++ m ++
        " \"$@\"\n".toList)) :=
  generateBinstub_bytes w m c a fs1 hparse hopen

/-- C1, at the module `github.com/org/tool/cmd/foo` with the comment
`binstub:args="-tags foo"`, in a working directory that holds only `bin`. -/
theorem generateBinstub_script_witness :
    (generateBinstub emptyBin "github.com/org/tool/cmd/foo".toList
      "binstub:args=\"-tags foo\"".toList).2 = none ∧
    Execute tpl ⟨if "-tags foo".toList = [] then "go run".toList
        else "go run ".toList ++ "-tags foo".toList, "github.com/org/tool/cmd/foo".toList⟩ =
      "#!/bin/sh\n# Code generated by binstubs. DO NOT EDIT.\n\nexec ".toList ++
        (if "-tags foo".toList = [] then "go run".toList
          else "go run ".toList ++ "-tags foo".toList) ++ " ".toList ++
        "github.com/org/tool/cmd/foo".toList ++ " \"$@\"\n".toList ∧
    (generateBinstub emptyBin "github.com/org/tool/cmd/foo".toList
      "binstub:args=\"-tags foo\"".toList).1.fs
        (Join ["bin".toList, Base "github.com/org/tool/cmd/foo".toList]) =
      some (Node.file ("#!/bin/sh\n# Code generated by binstubs. DO NOT EDIT.\n\nexec ".toList ++
        (if "-tags foo".toList = [] then "go run".toList
          else "go run ".toList ++ "-tags foo".toList) ++ " ".toList ++
        "github.com/org/tool/cmd/foo".toList ++ " \"$@\"\n".toList)) :=
  generateBinstub_script emptyBin "github.com/org/tool/cmd/foo".toList
    "binstub:args=\"-tags foo\"".toList "-tags foo".toList
    (emptyBin.fs.set "bin/foo".toList (Node.file [])) (by rfl) (by rfl)


/-- C2: for a non-empty value `A` without a double quote, the comments `binstub:args="A"` and
`binstub:args=A` both parse to `Ignore = false`, `Args = A`; the script written for either has
the run command `"go run " ++ A`; and on a line made of (non-empty) indentation, `_ "M"`,
` // ` and `binstub:args="A"` the loop of `main` calls the generator with the module `M` and
that comment. -/
theorem args_directive (A : Str) (hne : A ≠ []) (hq : '"' ∉ A) :
    parseComment ("binstub:args=\"".toList ++ A ++ "\"".toList) = Except.ok ⟨false, A⟩ ∧
    parseComment ("binstub:args=".toList ++ A) = Except.ok ⟨false, A⟩ ∧
    (∀ (w : World) (m c : Str) (fs1 : FS),
      c = "binstub:args=\"".toList ++ A ++ "\"".toList ∨ c = "binstub:args=".toList ++ A →
      OpenFile w.fs (Join ["bin".toList, Base m]) = Except.ok fs1 →
      (generateBinstub w m c).2 = none ∧
      (generateBinstub w m c).1.fs (Join ["bin".toList, Base m]) =
        some (Node.file ("#!/bin/sh\n# Code generated by binstubs. DO NOT EDIT.\n\nexec ".toList ++
          ("go run ".toList ++ A) ++ " ".toList ++ m ++ " \"$@\"\n".toList))) ∧
    (∀ (indent M : Str) (w : World) (n : Nat), indent ≠ [] → (∀ x ∈ indent, isSpace x = true) →
      M ≠ [] → '"' ∉ M → '\n' ∉ A →
      FindStringSubmatch lineRe (indent ++ "_ \"".toList ++ M ++ "\"".toList ++ " // ".toList ++
          ("binstub:args=\"".toList ++ A ++ "\"".toList)) =
        [indent ++ "_ \"".toList ++ M ++ "\"".toList ++ " // ".toList ++
          ("binstub:args=\"".toList ++ A ++ "\"".toList), M,
          "binstub:args=\"".toList ++ A ++ "\"".toList] ∧
      scanStep w n (indent ++ "_ \"".toList ++ M ++ "\"".toList ++ " // ".toList ++
          ("binstub:args=\"".toList ++ A ++ "\"".toList)) =
        ⟨(generateBinstub w M ("binstub:args=\"".toList ++ A ++ "\"".toList)).1, n + 1,
         (generateBinstub w M ("binstub:args=\"".toList ++ A ++ "\"".toList)).2⟩) := by
  have hA := notQuote_of_not_mem A hq
  have p1 : parseComment ("binstub:args=\"".toList ++ A ++ "\"".toList) = Except.ok ⟨false, A⟩ := by
    rw [parseComment_of_find _ _ _ _
      (find_of_matchAt _ _ _ (commentRe_matchAt_args_quoted A hA))]
    rfl
  have p2 : parseComment ("binstub:args=".toList ++ A) = Except.ok ⟨false, A⟩ := by
    rw [parseComment_of_find _ _ _ _ (find_of_matchAt _ _ _ (commentRe_matchAt_args_bare A hA))]
    rfl
  refine ⟨p1, p2, ?_, ?_⟩
  · intro w m c fs1 hc hopen
    have hp : parseComment c = Except.ok ⟨false, A⟩ := by
      rcases hc with rfl | rfl
      · exact p1
      · exact p2
    have := generateBinstub_bytes w m c A fs1 hp hopen
    rw [if_neg hne] at this
    exact ⟨this.1, this.2.2⟩
  · intro indent M w n hi1 hi2 hM1 hM2 hnl
    have hfind : FindStringSubmatch lineRe (indent ++ "_ \"".toList ++ M ++ "\"".toList ++
          " // ".toList ++ ("binstub:args=\"".toList ++ A ++ "\"".toList)) =
        [indent ++ "_ \"".toList ++ M ++ "\"".toList ++ " // ".toList ++
          ("binstub:args=\"".toList ++ A ++ "\"".toList), M,
          "binstub:args=\"".toList ++ A ++ "\"".toList] := by
      have e : indent ++ "_ \"".toList ++ M ++ "\"".toList ++ " // ".toList ++
          ("binstub:args=\"".toList ++ A ++ "\"".toList) =
          indent ++ '_' :: ' ' :: '"' :: M ++ '"' :: [' '] ++ '/' :: '/' :: [' '] ++
            ("binstub:args=\"".toList ++ A ++ "\"".toList) := by
        simp
      rw [e]
      apply find_of_matchAt
      apply lineRe_matchAt_marker indent M [' '] [' '] _ ' ' hi1 hi2 rfl hM1
        (notQuote_of_not_mem M hM2) (by decide) (by decide)
      · intro c t h
        simp at h
        rw [← h.1]
        rfl
      · apply anyChar_of_not_mem
        simp [hnl]
    exact ⟨hfind, scanStep_match w n _ _ _ _ hfind⟩

/-- C2, at the value `-tags postgres`, the module
`github.com/golang-migrate/migrate/v4/cmd/migrate` and an indentation of four spaces. -/
theorem args_directive_witness :
    parseComment "binstub:args=\"-tags postgres\"".toList =
      Except.ok ⟨false, "-tags postgres".toList⟩ ∧
    parseComment "binstub:args=-tags postgres".toList =
      Except.ok ⟨false, "-tags postgres".toList⟩ ∧
    (generateBinstub emptyBin "github.com/golang-migrate/migrate/v4/cmd/migrate".toList
      "binstub:args=\"-tags postgres\"".toList).1.fs "bin/migrate".toList =
      some (Node.file ("#!/bin/sh\n# Code generated by binstubs. DO NOT EDIT.\n\n" ++
        "exec go run -tags postgres github.com/golang-migrate/migrate/v4/cmd/migrate \"$@\"\n").toList) ∧
    FindStringSubmatch lineRe
      "    _ \"github.com/golang-migrate/migrate/v4/cmd/migrate\" // binstub:args=\"-tags postgres\"".toList =
      ["    _ \"github.com/golang-migrate/migrate/v4/cmd/migrate\" // binstub:args=\"-tags postgres\"".toList,
       "github.com/golang-migrate/migrate/v4/cmd/migrate".toList,
       "binstub:args=\"-tags postgres\"".toList] :=
  have h := args_directive "-tags postgres".toList (by decide) (by decide)
  ⟨h.1, h.2.1,
   (h.2.2.1 emptyBin "github.com/golang-migrate/migrate/v4/cmd/migrate".toList
      "binstub:args=\"-tags postgres\"".toList (emptyBin.fs.set "bin/migrate".toList (Node.file []))
      (Or.inl rfl) (by rfl)).2,
   (h.2.2.2 "    ".toList "github.com/golang-migrate/migrate/v4/cmd/migrate".toList emptyBin 0
      (by decide) (by decide) (by decide) (by decide) (by decide)).1⟩


/-- C3, as stated, fails: a comment can contain `binstub:ignore` after an `args` directive, and
the stub is written all the same; and in `binstub:ignored` the keyword is `ignored`, and the call
panics. -/
theorem skip_directive_counterexample :
    "binstub:args=\"-v\" binstub:ignore".toList =
      "binstub:args=\"-v\" ".toList ++ "binstub:ignore".toList ++ [] ∧
    (generateBinstub emptyBin "a/foo".toList "binstub:args=\"-v\" binstub:ignore".toList).1.fs
      "bin/foo".toList =
      some (Node.file ("#!/bin/sh\n# Code generated by binstubs. DO NOT EDIT.\n\n" ++
        "exec go run -v a/foo \"$@\"\n").toList) ∧
    emptyBin.fs "bin/foo".toList = none ∧
    "binstub:ignored".toList = [] ++ "binstub:ignore".toList ++ "d".toList ∧
    (generateBinstub emptyBin "a/foo".toList "binstub:ignored".toList).2 =
      some "bad syntax for comment binstub:ignored".toList := by
  refine ⟨by decide, by decide, by decide, by decide, by decide⟩

/-- C3, amended: when the first directive of the comment (the first place where `binstub:` is
followed by a word character) has exactly the keyword `ignore`, the call changes nothing and
does not panic. -/
theorem skip_directive (w : World) (m pre rest : Str)
    (hrest : ∀ x t, rest = x :: t → isWord x = false)
    (hfirst : ∀ p x q, pre ++ "binstub:".toList ++ "ignore".toList ++ rest =
      p ++ "binstub:".toList ++ x :: q → isWord x = true → pre.length ≤ p.length) :
    parseComment (pre ++ "binstub:".toList ++ "ignore".toList ++ rest) = Except.ok ⟨true, []⟩ ∧
    generateBinstub w m (pre ++ "binstub:".toList ++ "ignore".toList ++ rest) = (w, none) := by
  obtain ⟨wh, arg, h⟩ := find_first_directive pre "ignore".toList rest (by decide) (by decide)
    hrest hfirst
  have hp : parseComment (pre ++ "binstub:".toList ++ "ignore".toList ++ rest) =
      Except.ok ⟨true, []⟩ := by
    rw [parseComment_of_find _ _ _ _ h]
    rfl
  exact ⟨hp, generateBinstub_ignore w m _ _ hp⟩

/-- C3 amended, at the comment `binstub:ignore (vendored)`. -/
theorem skip_directive_witness :
    parseComment ([] ++ "binstub:".toList ++ "ignore".toList ++ " (vendored)".toList) =
      Except.ok ⟨true, []⟩ ∧
    generateBinstub emptyBin "a/foo".toList
      ([] ++ "binstub:".toList ++ "ignore".toList ++ " (vendored)".toList) = (emptyBin, none) :=
  skip_directive emptyBin "a/foo".toList [] " (vendored)".toList
    (by intro x t h; cases h; rfl) (by intro p x q _ _; exact Nat.zero_le _)

/-- C7: when the first directive of the comment has a keyword other than `ignore` and `args`,
`parseComment` panics with `"bad syntax for comment "` followed by the whole comment, and
`generateBinstub` panics with the same value and changes nothing. -/
theorem unknown_directive (pre kw rest : Str) (hne : kw ≠ [])
    (hkw : ∀ x ∈ kw, isWord x = true) (hrest : ∀ x t, rest = x :: t → isWord x = false)
    (hfirst : ∀ p x q, pre ++ "binstub:".toList ++ kw ++ rest =
      p ++ "binstub:".toList ++ x :: q → isWord x = true → pre.length ≤ p.length)
    (hignore : kw ≠ "ignore".toList) (hargs : kw ≠ "args".toList) :
    parseComment (pre ++ "binstub:".toList ++ kw ++ rest) =
      Except.error ("bad syntax for comment ".toList ++ (pre ++ "binstub:".toList ++ kw ++ rest)) ∧
    ∀ (w : World) (m : Str), generateBinstub w m (pre ++ "binstub:".toList ++ kw ++ rest) =
      (w, some ("bad syntax for comment ".toList ++ (pre ++ "binstub:".toList ++ kw ++ rest))) := by
  obtain ⟨wh, arg, h⟩ := find_first_directive pre kw rest hne hkw hrest hfirst
  have hp : parseComment (pre ++ "binstub:".toList ++ kw ++ rest) =
      Except.error ("bad syntax for comment ".toList ++
        (pre ++ "binstub:".toList ++ kw ++ rest)) := by
    rw [parseComment_of_find _ _ _ _ h, if_neg hignore, if_neg hargs]
  exact ⟨hp, fun w m => generateBinstub_error w m _ _ hp⟩

/-- C7, at the comment `binstub:bogus=1`. -/
theorem unknown_directive_witness :
    parseComment ([] ++ "binstub:".toList ++ "bogus".toList ++ "=1".toList) =
      Except.error ("bad syntax for comment ".toList ++
        ([] ++ "binstub:".toList ++ "bogus".toList ++ "=1".toList)) ∧
    ∀ (w : World) (m : Str),
      generateBinstub w m ([] ++ "binstub:".toList ++ "bogus".toList ++ "=1".toList) =
      (w, some ("bad syntax for comment ".toList ++
        ([] ++ "binstub:".toList ++ "bogus".toList ++ "=1".toList))) :=
  unknown_directive [] "bogus".toList "=1".toList (by decide) (by decide)
    (by intro x t h; cases h; rfl) (by intro p x q _ _; exact Nat.zero_le _)
    (by decide) (by decide)

/-- C8 on the code: the comments `binstub:args`, `binstub:args=` and `binstub:args=""` do not
make `parseComment` panic; each parses to `Ignore = false`, `Args = ""`, and a stub with the run
command `go run` is written.  The length test under `case "args"` never holds, since the slice
of a match always has three entries. -/
theorem args_without_value :
    parseComment "binstub:args".toList = Except.ok ⟨false, []⟩ ∧
    parseComment "binstub:args=".toList = Except.ok ⟨false, []⟩ ∧
    parseComment "binstub:args=\"\"".toList = Except.ok ⟨false, []⟩ ∧
    (generateBinstub emptyBin "a/foo".toList "binstub:args".toList).2 = none ∧
    (generateBinstub emptyBin "a/foo".toList "binstub:args".toList).1.fs "bin/foo".toList =
      some (Node.file ("#!/bin/sh\n# Code generated by binstubs. DO NOT EDIT.\n\n" ++
        "exec go run a/foo \"$@\"\n").toList) ∧
    ∀ c : Str, (FindStringSubmatch commentRe c).length > 1 →
      (FindStringSubmatch commentRe c).length = 3 := by
  refine ⟨by rfl, by rfl, by rfl, by decide, by decide, ?_⟩
  intro c hc
  rcases find_length commentRe c with h | h
  · rw [h] at hc
    simp at hc
  · rw [h]
    rfl

/-- C9: a comment in which `binstub:` is nowhere followed by a word character parses to the
default option `Ignore = false`, `Args = ""`, and the script written for it is the header
followed by the line `exec go run <module> "$@"`. -/
theorem no_directive (c : Str)
    (hnone : ∀ p x q, c = p ++ "binstub:".toList ++ x :: q → isWord x = false) :
    parseComment c = Except.ok ⟨false, []⟩ ∧
    ∀ (w : World) (m : Str) (fs1 : FS),
      OpenFile w.fs (Join ["bin".toList, Base m]) = Except.ok fs1 →
      (generateBinstub w m c).2 = none ∧
      (generateBinstub w m c).1.fs (Join ["bin".toList, Base m]) =
        some (Node.file ("#!/bin/sh\n# Code generated by binstubs. DO NOT EDIT.\n\n".toList ++
          ("exec go run ".toList ++ m ++ " \"$@\"".toList) ++ "\n".toList)) := by
  have hp : parseComment c = Except.ok ⟨false, []⟩ :=
    parseComment_of_find_nil c (find_no_directive c hnone)
  refine ⟨hp, ?_⟩
  intro w m fs1 hopen
  have := generateBinstub_bytes w m c [] fs1 hp hopen
  refine ⟨this.1, ?_⟩
  rw [this.2.2]
  simp

/-- C9, at the empty comment. -/
theorem no_directive_witness :
    parseComment [] = Except.ok ⟨false, []⟩ ∧
    ∀ (w : World) (m : Str) (fs1 : FS),
      OpenFile w.fs (Join ["bin".toList, Base m]) = Except.ok fs1 →
      (generateBinstub w m []).2 = none ∧
      (generateBinstub w m []).1.fs (Join ["bin".toList, Base m]) =
        some (Node.file ("#!/bin/sh\n# Code generated by binstubs. DO NOT EDIT.\n\n".toList ++
          ("exec go run ".toList ++ m ++ " \"$@\"".toList) ++ "\n".toList)) :=
  no_directive [] (by intro p x q h; simp at h)


/-- C4, as stated, fails: in the module path `tool/` the text after the last `/` is empty, so the
claim names the path `bin/`, but the file opened and written is `bin/tool`; and for the final
segments `..` and `.` the path that is opened is `.` and `bin`, not `bin/..` and `bin/.`. -/
theorem stub_path_counterexample :
    "tool/".toList = "tool/".toList ++ [] ∧
    Join ["bin".toList, Base "tool/".toList] = "bin/tool".toList ∧
    Join ["bin".toList, Base "tool/".toList] ≠ "bin/".toList ++ [] ∧
    (generateBinstub emptyBin "tool/".toList []).2 = none ∧
    (generateBinstub emptyBin "tool/".toList []).1.fs ("bin/".toList ++ []) = none ∧
    (generateBinstub emptyBin "tool/".toList []).1.fs "bin/tool".toList =
      some (Node.file ("#!/bin/sh\n# Code generated by binstubs. DO NOT EDIT.\n\n" ++
        "exec go run tool/ \"$@\"\n").toList) ∧
    (generateBinstub emptyBin "tool/".toList []).1.stderr = "wrote bin/tool\n".toList ∧
    Join ["bin".toList, Base "a/..".toList] = ".".toList ∧
    (generateBinstub emptyBin "a/..".toList []).2 = some "open .: is a directory".toList ∧
    Join ["bin".toList, Base "a/.".toList] = "bin".toList ∧
    (generateBinstub emptyBin "a/.".toList []).2 = some "open bin: is a directory".toList := by
  refine ⟨by decide, by decide, by decide, by decide, by decide, by decide, by decide, by decide,
    by decide, by decide, by decide⟩

/-- C4, amended: for a module path `pre ++ s` whose final segment `s` (the text after the last
`/`, or the whole path) is non-empty and neither `.` nor `..`, the stub path is `"bin/" ++ s`,
and with a comment that parses without the skip option that is the path opened, written and
reported. -/
theorem stub_path (pre s : Str) (hpre : pre = [] ∨ pre.getLast? = some '/') (hs : '/' ∉ s)
    (hne : s ≠ []) (hdot : s ≠ ".".toList) (hdotdot : s ≠ "..".toList) :
    Join ["bin".toList, Base (pre ++ s)] = "bin/".toList ++ s ∧
    ∀ (w : World) (c a : Str), parseComment c = Except.ok ⟨false, a⟩ →
      generateBinstub w (pre ++ s) c =
        match OpenFile w.fs ("bin/".toList ++ s) with
        | Except.error e => (w, some e)
        | Except.ok fs1 =>
          (⟨fs1.write ("bin/".toList ++ s)
              (Execute tpl ⟨if a = [] then "go run".toList else "go run ".toList ++ a, pre ++ s⟩),
            w.stdout, w.stderr ++ "wrote ".toList ++ ("bin/".toList ++ s) ++ "\n".toList⟩, none) := by
  have hj : Join ["bin".toList, Base (pre ++ s)] = "bin/".toList ++ s := by
    rw [Base_last pre s hpre hs hne, Join_bin s hs hne hdot hdotdot]
  refine ⟨hj, ?_⟩
  intro w c a hc
  cases ho : OpenFile w.fs ("bin/".toList ++ s) with
  | error e =>
    rw [← hj] at ho
    rw [generateBinstub_open_error w (pre ++ s) c a e hc ho]
  | ok fs1 =>
    rw [← hj] at ho
    rw [generateBinstub_write w (pre ++ s) c a fs1 hc ho, OpenFile_ok _ _ _ ho, hj]
    dsimp only
    rw [write_after_open, Execute_tpl]

/-- C4 amended, at the module path `github.com/org/tool/cmd/foo`. -/
theorem stub_path_witness :
    Join ["bin".toList, Base ("github.com/org/tool/cmd/".toList ++ "foo".toList)] =
      "bin/".toList ++ "foo".toList ∧
    (generateBinstub emptyBin ("github.com/org/tool/cmd/".toList ++ "foo".toList) []).1.fs
      "bin/foo".toList =
      some (Node.file ("#!/bin/sh\n# Code generated by binstubs. DO NOT EDIT.\n\n" ++
        "exec go run github.com/org/tool/cmd/foo \"$@\"\n").toList) :=
  have h := stub_path "github.com/org/tool/cmd/".toList "foo".toList (Or.inr (by decide))
    (by decide) (by decide) (by decide) (by decide)
  ⟨h.1, by rw [h.2 emptyBin [] [] (by rfl)]; decide⟩

/-- C5, as stated, fails: a line without leading whitespace is not recognised; a line with two
whitespace characters between `_` and the string is not recognised; and the comment of a
recognised line is the text after the marker without its leading whitespace (`x`, not ` x`). -/
theorem import_shape_counterexample :
    FindStringSubmatch lineRe "_ \"a/foo\"".toList = [] ∧
    FindStringSubmatch lineRe "\t_  \"a/foo\"".toList = [] ∧
    FindStringSubmatch lineRe "\t_ \"a/foo\" // x".toList =
      ["\t_ \"a/foo\" // x".toList, "a/foo".toList, "x".toList] ∧
    "x".toList ≠ " x".toList := by
  refine ⟨by decide, by decide, by decide, by decide⟩

/-- C5, amended: a line made of one or more whitespace characters, `_`, exactly one whitespace
character, a double-quoted non-empty string without a double quote, optional whitespace, and then
either nothing or the marker `//` with a text (free of newlines) is recognised by `lineRe`; the
module path is the content of the string, and the comment is the text after the marker without
its leading whitespace, empty when there is no marker. -/
theorem import_shape (ws M sp : Str) (b : Char) (hne : ws ≠ [])
    (hws : ∀ x ∈ ws, isSpace x = true) (hb : isSpace b = true) (hM : M ≠ []) (hq : '"' ∉ M)
    (hsp : ∀ x ∈ sp, isSpace x = true) :
    FindStringSubmatch lineRe (ws ++ '_' :: b :: '"' :: M ++ '"' :: sp) =
      [ws ++ '_' :: b :: '"' :: M ++ '"' :: sp, M, []] ∧
    ∀ sp2 text : Str, (∀ x ∈ sp2, isSpace x = true) → (∀ x t, text = x :: t → isSpace x = false) →
      '\n' ∉ text →
      FindStringSubmatch lineRe
          (ws ++ '_' :: b :: '"' :: M ++ '"' :: sp ++ '/' :: '/' :: sp2 ++ text) =
        [ws ++ '_' :: b :: '"' :: M ++ '"' :: sp ++ '/' :: '/' :: sp2 ++ text, M, text] := by
  have hM1 := notQuote_of_not_mem M hq
  constructor
  · have := lineRe_matchAt_plain ws M sp [] b hne hws hb hM hM1 hsp
      (by intro c t h; cases h) (by simp)
    simp only [List.append_nil] at this
    exact find_of_matchAt _ _ _ this
  · intro sp2 text h2 ht hnl
    exact find_of_matchAt _ _ _ (lineRe_matchAt_marker ws M sp sp2 text b hne hws hb hM hM1 hsp
      h2 ht (anyChar_of_not_mem text hnl))

/-- C5 amended, at the lines `<tab>_ "a/foo"` and `<tab>_ "a/foo" // binstub:ignore`. -/
theorem import_shape_witness :
    FindStringSubmatch lineRe "\t_ \"a/foo\"".toList =
      ["\t_ \"a/foo\"".toList, "a/foo".toList, []] ∧
    FindStringSubmatch lineRe "\t_ \"a/foo\" // binstub:ignore".toList =
      ["\t_ \"a/foo\" // binstub:ignore".toList, "a/foo".toList, "binstub:ignore".toList] :=
  ⟨(import_shape "\t".toList "a/foo".toList [] ' ' (by decide) (by decide) (by decide)
      (by decide) (by decide) (by decide)).1,
   (import_shape "\t".toList "a/foo".toList " ".toList ' ' (by decide) (by decide) (by decide)
      (by decide) (by decide) (by decide)).2 " ".toList "binstub:ignore".toList (by decide)
      (by intro x t h; cases h; rfl) (by decide)⟩

/-- C6, as stated, fails: the line `import _ "a/foo"` has text before the `_`, so it is not of
the shape, yet `lineRe` matches inside it, the counter goes up and the stub is written; and the
line `<tab>_ "a/foo" x` has text after the string without a marker `//` (its closing quote is
neither the end of the line nor followed by `//`), and it is matched as well, with `x` as the
comment. -/
theorem not_import_counterexample :
    (∀ ws rest : Str, (∀ x ∈ ws, isSpace x = true) →
      "import _ \"a/foo\"".toList ≠ ws ++ '_' :: rest) ∧
    FindStringSubmatch lineRe "import _ \"a/foo\"".toList =
      [" _ \"a/foo\"".toList, "a/foo".toList, []] ∧
    (scanStep emptyBin 0 "import _ \"a/foo\"".toList).count = 1 ∧
    (scanStep emptyBin 0 "import _ \"a/foo\"".toList).world.fs "bin/foo".toList =
      some (Node.file ("#!/bin/sh\n# Code generated by binstubs. DO NOT EDIT.\n\n" ++
        "exec go run a/foo \"$@\"\n").toList) ∧
    (∀ front tail : Str, "\t_ \"a/foo\" x".toList = front ++ '"' :: tail →
      tail ≠ [] ∧ ∀ text : Str, tail ≠ '/' :: '/' :: text) ∧
    FindStringSubmatch lineRe "\t_ \"a/foo\" x".toList =
      ["\t_ \"a/foo\" x".toList, "a/foo".toList, "x".toList] := by
  refine ⟨?_, by decide, by decide, by decide, ?_, by decide⟩
  · intro ws rest hws h
    cases ws with
    | nil => simp at h
    | cons c t =>
      simp at h
      have := hws c (List.mem_cons_self _ _)
      rw [← h.1] at this
      exact absurd this (by decide)
  · intro front tail h
    constructor
    · intro ht
      subst ht
      have hl : ("\t_ \"a/foo\" x".toList).getLast? = some '"' := by
        rw [h]
        simp
      exact absurd hl (by decide)
    · intro text ht
      subst ht
      have hi : ['"', '/', '/'] <:+: "\t_ \"a/foo\" x".toList := by
        rw [h]
        exact ⟨front, text, by simp⟩
      exact absurd hi (by decide)

/-- C6, amended: a line that nowhere holds a whitespace character, `_`, a whitespace character
and a double-quoted non-empty string is skipped: `lineRe` does not match it, and the loop body
leaves the world and the counter as they are and does not panic. -/
theorem not_import (line : Str)
    (hshape : ∀ (p M q : Str) (a b : Char), line = p ++ a :: '_' :: b :: '"' :: M ++ '"' :: q →
      isSpace a = true → isSpace b = true → M ≠ [] → '"' ∉ M → False) :
    FindStringSubmatch lineRe line = [] ∧
    ∀ (w : World) (n : Nat), scanStep w n line = ⟨w, n, none⟩ ∧
      ∀ rest : List Str, scanLoop (line :: rest) w n = scanLoop rest w n := by
  have hfind : FindStringSubmatch lineRe line = [] := by
    apply find_none
    intro p q hpq
    cases hm : matchAt lineRe q with
    | none => rfl
    | some m =>
      exfalso
      obtain ⟨ws, b, M, q1, hq, hne, hws, hb, hMne, hM⟩ := lineRe_matchAt_some q m hm
      have hlast : ws = ws.dropLast ++ [ws.getLast hne] := (List.dropLast_append_getLast hne).symm
      apply hshape (p ++ ws.dropLast) M q1 (ws.getLast hne) b
      · rw [hpq, hq]
        conv_lhs => rw [hlast]
        simp
      · exact hws _ (List.getLast_mem hne)
      · exact hb
      · exact hMne
      · intro hmem
        have := hM _ hmem
        simp [notQuote] at this
  refine ⟨hfind, ?_⟩
  intro w n
  have hs := scanStep_skip w n line hfind
  refine ⟨hs, ?_⟩
  intro rest
  simp [scanLoop, hs]

/-- C6 amended, at the line `package tools`. -/
theorem not_import_witness :
    FindStringSubmatch lineRe "package tools".toList = [] ∧
    ∀ (w : World) (n : Nat), scanStep w n "package tools".toList = ⟨w, n, none⟩ ∧
      ∀ rest : List Str, scanLoop ("package tools".toList :: rest) w n = scanLoop rest w n :=
  not_import "package tools".toList (by
    intro p M q a b h _ _ _ _
    have hmem : '_' ∈ "package tools".toList := by
      rw [h]
      simp
    exact absurd hmem (by decide))


theorem exists_last_sat {α : Type} (Q : α → Prop) (l : List α) (h : ∃ x ∈ l, Q x) :
    ∃ l1 y l2, l = l1 ++ y :: l2 ∧ Q y ∧ ∀ z ∈ l2, ¬ Q z := by
  induction l with
  | nil =>
    obtain ⟨x, hx, -⟩ := h
    cases hx
  | cons a t ih =>
    by_cases ht : ∃ z ∈ t, Q z
    · obtain ⟨l1, y, l2, e, hy, hl2⟩ := ih ht
      exact ⟨a :: l1, y, l2, by simp [e], hy, hl2⟩
    · obtain ⟨x, hx, hQ⟩ := h
      have hxa : x = a := by
        rcases List.mem_cons.mp hx with h1 | h1
        · exact h1
        · exact absurd ⟨x, h1, hQ⟩ ht
      subst hxa
      exact ⟨[], x, t, rfl, hQ, fun z hz hq => ht ⟨z, hz, hq⟩⟩

/-- C10, as stated, fails: the lines `_ "a/foo"` and `_ "b/foo"` have different module paths and
the run ends without a panic, but both have the output path `bin/foo`, and the one file there
holds the script of `b/foo`, not the script of `a/foo`. -/
theorem one_to_one_counterexample :
    (main (withTools "\t_ \"a/foo\"\n\t_ \"b/foo\"\n".toList)).2 = Outcome.exit 0 ∧
    ScanLines "\t_ \"a/foo\"\n\t_ \"b/foo\"\n".toList =
      ["\t_ \"a/foo\"".toList, "\t_ \"b/foo\"".toList] ∧
    FindStringSubmatch lineRe "\t_ \"a/foo\"".toList =
      ["\t_ \"a/foo\"".toList, "a/foo".toList, []] ∧
    FindStringSubmatch lineRe "\t_ \"b/foo\"".toList =
      ["\t_ \"b/foo\"".toList, "b/foo".toList, []] ∧
    Join ["bin".toList, Base "a/foo".toList] = "bin/foo".toList ∧
    Join ["bin".toList, Base "b/foo".toList] = "bin/foo".toList ∧
    (main (withTools "\t_ \"a/foo\"\n\t_ \"b/foo\"\n".toList)).1.fs "bin/foo".toList =
      some (Node.file ("#!/bin/sh\n# Code generated by binstubs. DO NOT EDIT.\n\n" ++
        "exec go run b/foo \"$@\"\n").toList) ∧
    (main (withTools "\t_ \"a/foo\"\n\t_ \"b/foo\"\n".toList)).1.fs "bin/foo".toList ≠
      some (Node.file (Execute tpl ⟨"go run".toList, "a/foo".toList⟩)) := by
  refine ⟨by decide, by decide, by decide, by decide, by decide, by decide, by decide, by decide⟩

/-- C10, amended: after a run that ends without a panic, every recognised line without the skip
option has a file at its output path `Join("bin", Base(module))`; the file holds the script of
the last such line with that output path, which is the line's own script when no later such line
has the same output path; and a path that is the output path of no such line names what it named
after `bin` was created. -/
theorem one_stub_per_path (w w1 : World) (content : Str) (code : Nat)
    (htools : w.fs "tools.go".toList = some (Node.file content))
    (hrun : main w = (w1, Outcome.exit code)) :
    (∀ (l1 l2 : List Str) (line whole m c a : Str), ScanLines content = l1 ++ line :: l2 →
      FindStringSubmatch lineRe line = [whole, m, c] → parseComment c = Except.ok ⟨false, a⟩ →
      (∀ line2 ∈ l2, ∀ whole2 m2 c2 a2, FindStringSubmatch lineRe line2 = [whole2, m2, c2] →
        parseComment c2 = Except.ok ⟨false, a2⟩ →
        Join ["bin".toList, Base m2] ≠ Join ["bin".toList, Base m]) →
      w1.fs (Join ["bin".toList, Base m]) = some (Node.file
        (Execute tpl ⟨if a = [] then "go run".toList else "go run ".toList ++ a, m⟩))) ∧
    (∀ line ∈ ScanLines content, ∀ whole m c a, FindStringSubmatch lineRe line = [whole, m, c] →
      parseComment c = Except.ok ⟨false, a⟩ →
      ∃ line2 ∈ ScanLines content, ∃ whole2 m2 c2 a2,
        FindStringSubmatch lineRe line2 = [whole2, m2, c2] ∧
        parseComment c2 = Except.ok ⟨false, a2⟩ ∧
        Join ["bin".toList, Base m2] = Join ["bin".toList, Base m] ∧
        w1.fs (Join ["bin".toList, Base m]) = some (Node.file
          (Execute tpl ⟨if a2 = [] then "go run".toList else "go run ".toList ++ a2, m2⟩))) ∧
    (∀ P : Str, (∀ line ∈ ScanLines content, ∀ whole m c a,
        FindStringSubmatch lineRe line = [whole, m, c] → parseComment c = Except.ok ⟨false, a⟩ →
        Join ["bin".toList, Base m] ≠ P) →
      w1.fs P = (MkdirAll w.fs "bin".toList).1 P) := by
  obtain ⟨hp, hfs⟩ := main_exit w w1 content code htools hrun
  have first : ∀ (l1 l2 : List Str) (line whole m c a : Str),
      ScanLines content = l1 ++ line :: l2 →
      FindStringSubmatch lineRe line = [whole, m, c] → parseComment c = Except.ok ⟨false, a⟩ →
      (∀ line2 ∈ l2, ∀ whole2 m2 c2 a2, FindStringSubmatch lineRe line2 = [whole2, m2, c2] →
        parseComment c2 = Except.ok ⟨false, a2⟩ →
        Join ["bin".toList, Base m2] ≠ Join ["bin".toList, Base m]) →
      w1.fs (Join ["bin".toList, Base m]) = some (Node.file
        (Execute tpl ⟨if a = [] then "go run".toList else "go run ".toList ++ a, m⟩)) := by
    intro l1 l2 line whole m c a hsplit hline hopt hlast
    rw [hfs]
    rw [hsplit] at hp ⊢
    exact scanLoop_last l1 l2 line whole m c a hline hopt hlast _ _ hp
  refine ⟨first, ?_, ?_⟩
  · intro line hmem whole m c a hline hopt
    obtain ⟨l1, y, l2, e, ⟨whole2, m2, c2, a2, hy1, hy2, hy3⟩, hl2⟩ :=
      exists_last_sat (fun l => ∃ whole2 m2 c2 a2, FindStringSubmatch lineRe l = [whole2, m2, c2] ∧
        parseComment c2 = Except.ok ⟨false, a2⟩ ∧
        Join ["bin".toList, Base m2] = Join ["bin".toList, Base m]) (ScanLines content)
        ⟨line, hmem, whole, m, c, a, hline, hopt, rfl⟩
    refine ⟨y, by rw [e]; simp, whole2, m2, c2, a2, hy1, hy2, hy3, ?_⟩
    rw [← hy3]
    apply first l1 l2 y whole2 m2 c2 a2 e hy1 hy2
    intro line3 h3 whole3 m3 c3 a3 hf3 hp3 hj3
    exact hl2 line3 h3 ⟨whole3, m3, c3, a3, hf3, hp3, by rw [hj3, hy3]⟩
  · intro P hP
    rw [hfs]
    exact scanLoop_frame _ P _ _ hp hP

/-- C10 amended, at a `tools.go` with the lines `_ "a/foo"` and `_ "b/foo"`: the file `bin/foo`
holds the script of the second line. -/
theorem one_stub_per_path_witness :
    (main (withTools "\t_ \"a/foo\"\n\t_ \"b/foo\"\n".toList)).1.fs
      (Join ["bin".toList, Base "b/foo".toList]) =
      some (Node.file (Execute tpl ⟨if ([] : Str) = [] then "go run".toList
        else "go run ".toList ++ [], "b/foo".toList⟩)) :=
  (one_stub_per_path (withTools "\t_ \"a/foo\"\n\t_ \"b/foo\"\n".toList)
    (main (withTools "\t_ \"a/foo\"\n\t_ \"b/foo\"\n".toList)).1
    "\t_ \"a/foo\"\n\t_ \"b/foo\"\n".toList 0 (by rfl)
    (Prod.ext rfl (by decide))).1 ["\t_ \"a/foo\"".toList] [] "\t_ \"b/foo\"".toList
      "\t_ \"b/foo\"".toList "b/foo".toList [] [] (by decide) (by decide) (by rfl)
      (by intro l hl; cases hl)

/-- C11: when `tools.go` is a file in which the scanner finds no line that `lineRe` matches (the
empty file included), the run prints `no imports found in tools.go`, exits with status 1, and
changes nothing but the creation of the directory `bin`: no file is written. -/
theorem no_imports_found (w : World) (content : Str)
    (htools : w.fs "tools.go".toList = some (Node.file content))
    (hnone : ∀ line ∈ ScanLines content, FindStringSubmatch lineRe line = []) :
    main w = (⟨(MkdirAll w.fs "bin".toList).1,
        w.stdout ++ "no imports found in tools.go\n".toList, w.stderr⟩, Outcome.exit 1) ∧
    ∀ P : Str, P ≠ "bin".toList → (main w).1.fs P = w.fs P := by
  have h : main w = (⟨(MkdirAll w.fs "bin".toList).1,
      w.stdout ++ "no imports found in tools.go\n".toList, w.stderr⟩, Outcome.exit 1) := by
    rw [main_eq w _ htools (ScanLines content) (Or.inl ⟨content, rfl, rfl⟩),
      scanLoop_all_skip _ _ _ hnone]
    rfl
  refine ⟨h, ?_⟩
  intro P hP
  rw [h]
  exact MkdirAll_other _ _ _ hP

/-- C11, at the empty `tools.go`. -/
theorem no_imports_found_witness :
    main (withTools []) = (⟨(MkdirAll (withTools []).fs "bin".toList).1,
        (withTools []).stdout ++ "no imports found in tools.go\n".toList, (withTools []).stderr⟩,
        Outcome.exit 1) ∧
    ∀ P : Str, P ≠ "bin".toList → (main (withTools [])).1.fs P = (withTools []).fs P :=
  no_imports_found (withTools []) [] (by rfl) (by decide)

/-- C12, as stated, fails: where `bin` is a symbolic link to the working directory and `tools.go`
imports `x/tools.go`, the stub path `bin/tools.go` leads to `tools.go` itself.  The first run
writes the script there, reports `wrote bin/tools.go` and ends with status 0; the second run
finds no import line in what is now `tools.go`, prints `no imports found in tools.go` and exits
with status 1. -/
theorem idempotent_counterexample :
    ScanLines ("// Package tools pins the developer tools of this project.\n" ++
        "package tools\n\nimport (\n\t_ \"x/tools.go\"\n)\n").toList =
      ["// Package tools pins the developer tools of this project.".toList,
        "package tools".toList, [], "import (".toList, "\t_ \"x/tools.go\"".toList,
        ")".toList] ∧
    FindStringSubmatch lineRe "\t_ \"x/tools.go\"".toList =
      ["\t_ \"x/tools.go\"".toList, "x/tools.go".toList, []] ∧
    Join ["bin".toList, Base "x/tools.go".toList] = "bin/tools.go".toList ∧
    resolve [("bin".toList, ".".toList)] "bin/tools.go".toList = "tools.go".toList ∧
    (mainLinked (binLinkedToDot ("// Package tools pins the developer tools of this project.\n" ++
        "package tools\n\nimport (\n\t_ \"x/tools.go\"\n)\n").toList)).map Prod.snd =
      some (Outcome.exit 0) ∧
    (mainLinked (binLinkedToDot ("// Package tools pins the developer tools of this project.\n" ++
        "package tools\n\nimport (\n\t_ \"x/tools.go\"\n)\n").toList)).map
        (fun r => r.1.world.fs "tools.go".toList) =
      some (some (Node.file ("#!/bin/sh\n# Code generated by binstubs. DO NOT EDIT.\n\n" ++
        "exec go run x/tools.go \"$@\"\n").toList)) ∧
    (mainLinked (binLinkedToDot ("// Package tools pins the developer tools of this project.\n" ++
        "package tools\n\nimport (\n\t_ \"x/tools.go\"\n)\n").toList)).map
        (fun r => r.1.world.stderr) = some "wrote bin/tools.go\n".toList ∧
    ((mainLinked (binLinkedToDot ("// Package tools pins the developer tools of this project.\n" ++
        "package tools\n\nimport (\n\t_ \"x/tools.go\"\n)\n").toList)).bind
        (fun r => mainLinked r.1)).map Prod.snd = some (Outcome.exit 1) ∧
    ((mainLinked (binLinkedToDot ("// Package tools pins the developer tools of this project.\n" ++
        "package tools\n\nimport (\n\t_ \"x/tools.go\"\n)\n").toList)).bind
        (fun r => mainLinked r.1)).map (fun r => r.1.world.stdout) =
      some "no imports found in tools.go\n".toList := by
  refine ⟨by decide, by decide, by decide, by decide, by decide, by decide, by decide, by decide,
    by decide⟩

/-- C12, amended: in a world without links a run is the run of `main`; a second run on what the
first run has left ends the same way (the same exit status or the same panic) and leaves every
file as the first run left it; and the first run does not change `tools.go`. -/
theorem idempotent_without_links (lw : LinkedWorld) (hlinks : lw.links = []) :
    ∃ r1 r2, mainLinked lw = some r1 ∧ r1 = (⟨(main lw.world).1, []⟩, (main lw.world).2) ∧
      mainLinked r1.1 = some r2 ∧ r2.2 = r1.2 ∧ r2.1.world.fs = r1.1.world.fs ∧
      r1.1.world.fs "tools.go".toList = lw.world.fs "tools.go".toList := by
  rcases lw with ⟨w, links⟩
  simp only at hlinks
  subst hlinks
  refine ⟨(⟨(main w).1, []⟩, (main w).2), (⟨(main (main w).1).1, []⟩, (main (main w).1).2),
    mainLinked_nil w, rfl, mainLinked_nil (main w).1, (main_twice w).1, (main_twice w).2,
    main_tools w⟩

/-- C12 amended, at a working directory that holds only a `tools.go` with the line
`_ "a/foo"`. -/
theorem idempotent_without_links_witness :
    ∃ r1 r2, mainLinked ⟨withTools "\t_ \"a/foo\"\n".toList, []⟩ = some r1 ∧
      r1 = (⟨(main (withTools "\t_ \"a/foo\"\n".toList)).1, []⟩,
        (main (withTools "\t_ \"a/foo\"\n".toList)).2) ∧
      mainLinked r1.1 = some r2 ∧ r2.2 = r1.2 ∧ r2.1.world.fs = r1.1.world.fs ∧
      r1.1.world.fs "tools.go".toList =
        (withTools "\t_ \"a/foo\"\n".toList).fs "tools.go".toList :=
  idempotent_without_links ⟨withTools "\t_ \"a/foo\"\n".toList, []⟩ rfl

/-- C13: a value of `parseComment` never has both `Ignore = true` and a non-empty `Args`; it is
the default option when the keyword that `commentRe` finds is neither `ignore` nor `args`; and a
comment that `commentRe` does not match gives the default option without a panic. -/
theorem one_directive_kind (c : Str) :
    (∀ o, parseComment c = Except.ok o →
      ¬ (o.Ignore = true ∧ o.Args ≠ []) ∧
      ((∀ w arg, FindStringSubmatch commentRe c ≠ [w, "ignore".toList, arg]) →
        (∀ w arg, FindStringSubmatch commentRe c ≠ [w, "args".toList, arg]) →
        o = ⟨false, []⟩)) ∧
    (FindStringSubmatch commentRe c = [] → parseComment c = Except.ok ⟨false, []⟩) := by
  refine ⟨?_, parseComment_of_find_nil c⟩
  intro o ho
  rcases find_commentRe_cases c with h | ⟨w, kw, arg, h⟩
  · rw [parseComment_of_find_nil c h] at ho
    cases ho
    exact ⟨by simp, fun _ _ => rfl⟩
  · rw [parseComment_of_find c w kw arg h] at ho
    by_cases h1 : kw = "ignore".toList
    · rw [if_pos h1] at ho
      cases ho
      exact ⟨by simp, fun hi _ => absurd (h1 ▸ h) (hi w arg)⟩
    · rw [if_neg h1] at ho
      by_cases h2 : kw = "args".toList
      · rw [if_pos h2] at ho
        cases ho
        exact ⟨by simp, fun _ ha => absurd (h2 ▸ h) (ha w arg)⟩
      · rw [if_neg h2] at ho
        cases ho

/-- C14, as stated, fails: the module path of the recognised line `<tab>_ "a b//"` holds a
whitespace character and empty segments. -/
theorem module_path_counterexample :
    FindStringSubmatch lineRe "\t_ \"a b//\"".toList =
      ["\t_ \"a b//\"".toList, "a b//".toList, []] ∧
    ' ' ∈ "a b//".toList ∧ isSpace ' ' = true ∧
    splitSep '/' "a b//".toList = ["a b".toList, [], []] := by
  refine ⟨by decide, by decide, by decide, by decide⟩

/-- C14, amended: the module path of a recognised line is not empty and holds no double quote;
the comment may be empty. -/
theorem module_path_shape (line whole m c : Str)
    (h : FindStringSubmatch lineRe line = [whole, m, c]) :
    m ≠ [] ∧ '"' ∉ m ∧
    FindStringSubmatch lineRe "\t_ \"a/foo\"".toList =
      ["\t_ \"a/foo\"".toList, "a/foo".toList, []] :=
  ⟨(find_lineRe_module line whole m c h).1, (find_lineRe_module line whole m c h).2, by decide⟩

/-- C14 amended, at the line `<tab>_ "a b//"`. -/
theorem module_path_shape_witness :
    "a b//".toList ≠ [] ∧ '"' ∉ "a b//".toList ∧
    FindStringSubmatch lineRe "\t_ \"a/foo\"".toList =
      ["\t_ \"a/foo\"".toList, "a/foo".toList, []] :=
  module_path_shape "\t_ \"a b//\"".toList "\t_ \"a b//\"".toList "a b//".toList [] (by decide)

/-- C15, as stated, fails: with the lines `_ "a/foo"`, `_ "b/foo"` and a third line with the
comment `binstub:bogus`, the run aborts at the third line, and `bin/foo` holds the script of
`b/foo`; the stub of `a/foo` is not there with its script.  And with a first line `_ ".."` the
run aborts on opening `.`, before the line whose comment does not parse, and the stub of the
line `_ "a/foo"` in between is never written. -/
theorem abort_counterexample :
    (main (withTools "\t_ \"a/foo\"\n\t_ \"b/foo\"\n\t_ \"c/bar\" // binstub:bogus\n".toList)).2 =
      Outcome.panic "bad syntax for comment binstub:bogus".toList ∧
    parseComment [] = Except.ok ⟨false, []⟩ ∧
    (main (withTools "\t_ \"a/foo\"\n\t_ \"b/foo\"\n\t_ \"c/bar\" // binstub:bogus\n".toList)).1.fs
      "bin/foo".toList = some (Node.file (Execute tpl ⟨"go run".toList, "b/foo".toList⟩)) ∧
    (main (withTools "\t_ \"a/foo\"\n\t_ \"b/foo\"\n\t_ \"c/bar\" // binstub:bogus\n".toList)).1.fs
      "bin/foo".toList ≠ some (Node.file (Execute tpl ⟨"go run".toList, "a/foo".toList⟩)) ∧
    (main (withTools "\t_ \"..\"\n\t_ \"a/foo\"\n\t_ \"c/bar\" // binstub:bogus\n".toList)).2 =
      Outcome.panic "open .: is a directory".toList ∧
    (main (withTools "\t_ \"..\"\n\t_ \"a/foo\"\n\t_ \"c/bar\" // binstub:bogus\n".toList)).1.fs
      "bin/foo".toList = none := by
  refine ⟨by decide, by rfl, by decide, by decide, by decide, by decide⟩

/-- C15, amended: when the lines before a recognised line have caused no panic and the comment
of that line does not parse, the run ends with the panic of `parseComment` in the world the
lines before have left: every output path of a recognised line without the skip option before
it holds the full script of the last such line with that path, and every other path is as it
was after `bin` was created, so nothing is written for that line or for a later one. -/
theorem abort_keeps_stubs (w : World) (content : Str) (l1 l2 : List Str) (line whole m c e : Str)
    (htools : w.fs "tools.go".toList = some (Node.file content))
    (hsplit : ScanLines content = l1 ++ line :: l2)
    (hbefore : (scanLoop l1 ⟨(MkdirAll w.fs "bin".toList).1, w.stdout, w.stderr⟩ 0).panic = none)
    (hline : FindStringSubmatch lineRe line = [whole, m, c])
    (hfail : parseComment c = Except.error e) :
    main w = ((scanLoop l1 ⟨(MkdirAll w.fs "bin".toList).1, w.stdout, w.stderr⟩ 0).world,
      Outcome.panic e) ∧
    (∀ (k1 k2 : List Str) (ln wh m1 c1 a1 : Str), l1 = k1 ++ ln :: k2 →
      FindStringSubmatch lineRe ln = [wh, m1, c1] → parseComment c1 = Except.ok ⟨false, a1⟩ →
      (∀ ln2 ∈ k2, ∀ wh2 m2 c2 a2, FindStringSubmatch lineRe ln2 = [wh2, m2, c2] →
        parseComment c2 = Except.ok ⟨false, a2⟩ →
        Join ["bin".toList, Base m2] ≠ Join ["bin".toList, Base m1]) →
      (main w).1.fs (Join ["bin".toList, Base m1]) = some (Node.file
        (Execute tpl ⟨if a1 = [] then "go run".toList else "go run ".toList ++ a1, m1⟩))) ∧
    (∀ P : Str, (∀ ln ∈ l1, ∀ wh m1 c1 a1, FindStringSubmatch lineRe ln = [wh, m1, c1] →
        parseComment c1 = Except.ok ⟨false, a1⟩ → Join ["bin".toList, Base m1] ≠ P) →
      (main w).1.fs P = (MkdirAll w.fs "bin".toList).1 P) := by
  have hm : main w = ((scanLoop l1 ⟨(MkdirAll w.fs "bin".toList).1, w.stdout, w.stderr⟩ 0).world,
      Outcome.panic e) := by
    rw [main_eq w _ htools (ScanLines content) (Or.inl ⟨content, rfl, rfl⟩), hsplit,
      scanLoop_parse_error l1 l2 line whole m c e _ 0 hbefore hline hfail]
  refine ⟨hm, ?_, ?_⟩
  · intro k1 k2 ln wh m1 c1 a1 hk hln hopt hlast
    rw [hm]
    subst hk
    exact scanLoop_last k1 k2 ln wh m1 c1 a1 hln hopt hlast _ _ hbefore
  · intro P hP
    rw [hm]
    exact scanLoop_frame l1 P _ _ hbefore hP

/-- C15 amended, at a `tools.go` with the lines `_ "a/foo"`, `_ "b/foo"` and
`_ "c/bar" // binstub:bogus`. -/
theorem abort_keeps_stubs_witness :
    (main (withTools "\t_ \"a/foo\"\n\t_ \"b/foo\"\n\t_ \"c/bar\" // binstub:bogus\n".toList)).2 =
      Outcome.panic "bad syntax for comment binstub:bogus".toList :=
  congrArg Prod.snd (abort_keeps_stubs
    (withTools "\t_ \"a/foo\"\n\t_ \"b/foo\"\n\t_ \"c/bar\" // binstub:bogus\n".toList)
    "\t_ \"a/foo\"\n\t_ \"b/foo\"\n\t_ \"c/bar\" // binstub:bogus\n".toList
    ["\t_ \"a/foo\"".toList, "\t_ \"b/foo\"".toList] []
    "\t_ \"c/bar\" // binstub:bogus".toList "\t_ \"c/bar\" // binstub:bogus".toList
    "c/bar".toList "binstub:bogus".toList "bad syntax for comment binstub:bogus".toList
    (by rfl) (by decide) (by decide) (by decide) (by rfl)).1

/-- C16, as stated, fails: the lines `_ "a/.."` and `_ "b/.."` are recognised, have no skip
option and have the same final segment `..`, but their output path is `.`, the run panics at the
first of them, and there is no file `bin/..`; and of three lines `_ "a/foo"`, `_ "b/foo"`,
`_ "c/foo"` the first two have the same final segment, yet the file holds the script of the
third, not that of the later of the two. -/
theorem later_line_counterexample :
    FindStringSubmatch lineRe "\t_ \"a/..\"".toList = ["\t_ \"a/..\"".toList, "a/..".toList, []] ∧
    FindStringSubmatch lineRe "\t_ \"b/..\"".toList = ["\t_ \"b/..\"".toList, "b/..".toList, []] ∧
    parseComment [] = Except.ok ⟨false, []⟩ ∧
    Base "a/..".toList = "..".toList ∧ Base "b/..".toList = "..".toList ∧
    Join ["bin".toList, Base "b/..".toList] = ".".toList ∧
    (main (withTools "\t_ \"a/..\"\n\t_ \"b/..\"\n".toList)).2 =
      Outcome.panic "open .: is a directory".toList ∧
    (main (withTools "\t_ \"a/..\"\n\t_ \"b/..\"\n".toList)).1.fs "bin/..".toList = none ∧
    ScanLines "\t_ \"a/foo\"\n\t_ \"b/foo\"\n\t_ \"c/foo\"\n".toList =
      ["\t_ \"a/foo\"".toList, "\t_ \"b/foo\"".toList, "\t_ \"c/foo\"".toList] ∧
    (main (withTools "\t_ \"a/foo\"\n\t_ \"b/foo\"\n\t_ \"c/foo\"\n".toList)).2 = Outcome.exit 0 ∧
    (main (withTools "\t_ \"a/foo\"\n\t_ \"b/foo\"\n\t_ \"c/foo\"\n".toList)).1.fs
      "bin/foo".toList = some (Node.file (Execute tpl ⟨"go run".toList, "c/foo".toList⟩)) ∧
    (main (withTools "\t_ \"a/foo\"\n\t_ \"b/foo\"\n\t_ \"c/foo\"\n".toList)).1.fs
      "bin/foo".toList ≠ some (Node.file (Execute tpl ⟨"go run".toList, "b/foo".toList⟩)) := by
  refine ⟨by decide, by decide, by rfl, by decide, by decide, by decide, by decide, by decide,
    by decide, by decide, by decide, by decide⟩

/-- C16, amended: when a recognised line without the skip option comes after another one with
the same last element of the module path, no later such line has that output path, and the run
ends without a panic, the two lines have one output path; the earlier line writes its script
there, and at the end of the run the file there holds exactly the script of the later line; for
a last element `s` other than `.`, `..` and `/` that path is `"bin/" ++ s`. -/
theorem later_line_wins (w w1 : World) (content : Str) (code : Nat)
    (l1 l2 l3 : List Str) (x y wx mx cx ax wy my cy ay : Str)
    (htools : w.fs "tools.go".toList = some (Node.file content))
    (hrun : main w = (w1, Outcome.exit code))
    (hsplit : ScanLines content = l1 ++ x :: l2 ++ y :: l3)
    (hx : FindStringSubmatch lineRe x = [wx, mx, cx])
    (hpx : parseComment cx = Except.ok ⟨false, ax⟩)
    (hy : FindStringSubmatch lineRe y = [wy, my, cy])
    (hpy : parseComment cy = Except.ok ⟨false, ay⟩)
    (hseg : Base mx = Base my)
    (hlast : ∀ ln ∈ l3, ∀ wh m2 c2 a2, FindStringSubmatch lineRe ln = [wh, m2, c2] →
      parseComment c2 = Except.ok ⟨false, a2⟩ →
      Join ["bin".toList, Base m2] ≠ Join ["bin".toList, Base my]) :
    Join ["bin".toList, Base mx] = Join ["bin".toList, Base my] ∧
    (scanLoop (l1 ++ [x]) ⟨(MkdirAll w.fs "bin".toList).1, w.stdout, w.stderr⟩ 0).world.fs
      (Join ["bin".toList, Base my]) = some (Node.file
      ("#!/bin/sh\n# Code generated by binstubs. DO NOT EDIT.\n\nexec ".toList ++
        (if ax = [] then "go run".toList else "go run ".toList ++ ax) ++ " ".toList ++ mx ++
        " \"$@\"\n".toList)) ∧
    w1.fs (Join ["bin".toList, Base my]) = some (Node.file
      ("#!/bin/sh\n# Code generated by binstubs. DO NOT EDIT.\n\nexec ".toList ++
        (if ay = [] then "go run".toList else "go run ".toList ++ ay) ++ " ".toList ++ my ++
        " \"$@\"\n".toList)) ∧
    (Base my ≠ ".".toList → Base my ≠ "..".toList → Base my ≠ "/".toList →
      Join ["bin".toList, Base my] = "bin/".toList ++ Base my) := by
  obtain ⟨hp, hfs⟩ := main_exit w w1 content code htools hrun
  refine ⟨by rw [hseg], ?_, ?_, ?_⟩
  · have hp1 : (scanLoop (l1 ++ [x]) ⟨(MkdirAll w.fs "bin".toList).1, w.stdout, w.stderr⟩
        0).panic = none := by
      apply scanLoop_panic_before (l1 ++ [x]) (l2 ++ y :: l3)
      rw [hsplit] at hp
      simpa using hp
    rw [← hseg, scanLoop_last l1 [] x wx mx cx ax hx hpx (by intro ln hl; cases hl) _ _ hp1,
      Execute_tpl]
  · rw [hfs]
    rw [hsplit] at hp ⊢
    rw [scanLoop_last (l1 ++ x :: l2) l3 y wy my cy ay hy hpy hlast _ _ hp, Execute_tpl]
  · intro h1 h2 h3
    rcases stubPath_cases my with ⟨h, -⟩ | ⟨h | h, -⟩ | ⟨-, -, -, -, h⟩
    · exact absurd h h2
    · exact absurd h h1
    · exact absurd h h3
    · exact h

/-- C16 amended, at a `tools.go` with the lines
`_ "a.com/x/cmd/foo" // binstub:args="-tags long"` and `_ "b.com/y/cmd/foo"`: the longer script
of the first line is replaced by the shorter one. -/
theorem later_line_wins_witness :
    (main (withTools
      "\t_ \"a.com/x/cmd/foo\" // binstub:args=\"-tags long\"\n\t_ \"b.com/y/cmd/foo\"\n".toList)).1.fs
      (Join ["bin".toList, Base "b.com/y/cmd/foo".toList]) = some (Node.file
      ("#!/bin/sh\n# Code generated by binstubs. DO NOT EDIT.\n\nexec ".toList ++
        (if ([] : Str) = [] then "go run".toList else "go run ".toList ++ []) ++ " ".toList ++
        "b.com/y/cmd/foo".toList ++ " \"$@\"\n".toList)) :=
  (later_line_wins
    (withTools
      "\t_ \"a.com/x/cmd/foo\" // binstub:args=\"-tags long\"\n\t_ \"b.com/y/cmd/foo\"\n".toList)
    (main (withTools
      "\t_ \"a.com/x/cmd/foo\" // binstub:args=\"-tags long\"\n\t_ \"b.com/y/cmd/foo\"\n".toList)).1
    "\t_ \"a.com/x/cmd/foo\" // binstub:args=\"-tags long\"\n\t_ \"b.com/y/cmd/foo\"\n".toList 0
    [] [] []
    "\t_ \"a.com/x/cmd/foo\" // binstub:args=\"-tags long\"".toList "\t_ \"b.com/y/cmd/foo\"".toList
    "\t_ \"a.com/x/cmd/foo\" // binstub:args=\"-tags long\"".toList "a.com/x/cmd/foo".toList
    "binstub:args=\"-tags long\"".toList "-tags long".toList
    "\t_ \"b.com/y/cmd/foo\"".toList "b.com/y/cmd/foo".toList [] []
    (by rfl) (Prod.ext rfl (by decide)) (by decide) (by decide) (by rfl) (by decide) (by rfl)
    (by decide) (by intro ln hl; cases hl)).2.2.1

/-- C17, as stated, fails: for the module paths `..` and `a/.` the path that is opened is the
working directory `.` and the output directory `bin`, neither of the form `"bin/" ++ name`; and
where `bin` is a regular file, the script of the module path `a/.` is written into `bin`
itself. -/
theorem stub_child_counterexample :
    FindStringSubmatch lineRe "\t_ \"..\"".toList = ["\t_ \"..\"".toList, "..".toList, []] ∧
    Join ["bin".toList, Base "..".toList] = ".".toList ∧
    (generateBinstub emptyBin "..".toList []).2 = some "open .: is a directory".toList ∧
    FindStringSubmatch lineRe "\t_ \"a/.\"".toList = ["\t_ \"a/.\"".toList, "a/.".toList, []] ∧
    Join ["bin".toList, Base "a/.".toList] = "bin".toList ∧
    (generateBinstub emptyBin "a/.".toList []).2 = some "open bin: is a directory".toList ∧
    (generateBinstub binIsFile "a/.".toList []).2 = none ∧
    (generateBinstub binIsFile "a/.".toList []).1.fs "bin".toList =
      some (Node.file (Execute tpl ⟨"go run".toList, "a/.".toList⟩)) ∧
    (generateBinstub binIsFile "a/.".toList []).1.stderr = "wrote bin\n".toList := by
  refine ⟨by decide, by decide, by decide, by decide, by decide, by decide, by decide, by decide,
    by decide⟩

/-- C17, amended: the stub path of a module path is the working directory `.` when the last
element of the module path is `..`, the output directory `bin` when it is `.` or `/`, and
otherwise the direct child `"bin/" ++ name` of the output directory, where `name`, the last
element, is non-empty, holds no `/` and is neither `.` nor `..`; and where `bin` is a directory,
every path that a call of the generator changes is such a direct child. -/
theorem stub_child (w : World) (m c : Str) (hbin : w.fs "bin".toList = some Node.dir) :
    ((Base m = "..".toList ∧ Join ["bin".toList, Base m] = ".".toList) ∨
      ((Base m = ".".toList ∨ Base m = "/".toList) ∧
        Join ["bin".toList, Base m] = "bin".toList) ∨
      (Base m ≠ [] ∧ '/' ∉ Base m ∧ Base m ≠ ".".toList ∧ Base m ≠ "..".toList ∧
        Join ["bin".toList, Base m] = "bin/".toList ++ Base m)) ∧
    ∀ P : Str, (generateBinstub w m c).1.fs P ≠ w.fs P →
      P = "bin/".toList ++ Base m ∧ Base m ≠ [] ∧ '/' ∉ Base m ∧ Base m ≠ ".".toList ∧
        Base m ≠ "..".toList := by
  refine ⟨stubPath_cases m, ?_⟩
  intro P hP
  obtain ⟨h1, h2⟩ := generateBinstub_changes w m c P hP
  rcases stubPath_cases m with ⟨-, h⟩ | ⟨-, h⟩ | ⟨a1, a2, a3, a4, h⟩
  · rw [h1, h] at h2
    exact absurd h2 (by simp [FS.isDir])
  · rw [h1, h] at h2
    have : w.fs.isDir "bin".toList = true := by
      unfold FS.isDir
      rw [hbin]
      simp
    rw [this] at h2
    cases h2
  · exact ⟨by rw [h1, h], a1, a2, a3, a4⟩

/-- C17 amended, in a working directory that holds only `bin`, at the module path `a/foo/`:
the path that the call changes is `bin/foo`. -/
theorem stub_child_witness :
    "bin/foo".toList = "bin/".toList ++ Base "a/foo/".toList ∧ Base "a/foo/".toList ≠ [] ∧
      '/' ∉ Base "a/foo/".toList ∧ Base "a/foo/".toList ≠ ".".toList ∧
      Base "a/foo/".toList ≠ "..".toList :=
  (stub_child emptyBin "a/foo/".toList [] (by rfl)).2 "bin/foo".toList (by decide)

/-- C18: when `tools.go` has a line that `lineRe` matches and the run does not panic, the run
exits with status 0 and prints nothing on the standard output; this holds as well when every
recognised line has the skip option, and then nothing is written: the files are as they were
after `bin` was created. -/
theorem exit_by_count (w : World) (content line : Str)
    (htools : w.fs "tools.go".toList = some (Node.file content))
    (hmem : line ∈ ScanLines content) (hrec : FindStringSubmatch lineRe line ≠ [])
    (hexit : ∃ code, (main w).2 = Outcome.exit code) :
    (main w).2 = Outcome.exit 0 ∧ (main w).1.stdout = w.stdout ∧
    ((∀ l ∈ ScanLines content, ∀ whole m c, FindStringSubmatch lineRe l = [whole, m, c] →
        ∃ a, parseComment c = Except.ok ⟨true, a⟩) →
      (main w).1.fs = (MkdirAll w.fs "bin".toList).1) := by
  have hm := main_eq w _ htools (ScanLines content) (Or.inl ⟨content, rfl, rfl⟩)
  obtain ⟨code, hcode⟩ := hexit
  cases hp : (scanLoop (ScanLines content)
      ⟨(MkdirAll w.fs "bin".toList).1, w.stdout, w.stderr⟩ 0).panic with
  | some e =>
    rw [hm, hp] at hcode
    cases hcode
  | none =>
    have hcnt := (scanLoop_count _ _ 0 hp).2 ⟨line, hmem, hrec⟩
    have hne : (scanLoop (ScanLines content)
        ⟨(MkdirAll w.fs "bin".toList).1, w.stdout, w.stderr⟩ 0).count ≠ 0 := Nat.pos_iff_ne_zero.mp hcnt
    rw [hp] at hm
    simp only [hne, if_false] at hm
    rw [hm]
    refine ⟨rfl, scanLoop_stdout _ _ _, ?_⟩
    intro hall
    show (scanLoop _ _ 0).world.fs = _
    rw [(scanLoop_all_ignore _ _ 0 hall).1]

/-- C18, at a `tools.go` whose only import line carries `binstub:ignore`. -/
theorem exit_by_count_witness :
    (main (withTools "\t_ \"a/foo\" // binstub:ignore\n".toList)).2 = Outcome.exit 0 ∧
    (main (withTools "\t_ \"a/foo\" // binstub:ignore\n".toList)).1.stdout =
      (withTools "\t_ \"a/foo\" // binstub:ignore\n".toList).stdout ∧
    (main (withTools "\t_ \"a/foo\" // binstub:ignore\n".toList)).1.fs =
      (MkdirAll (withTools "\t_ \"a/foo\" // binstub:ignore\n".toList).fs "bin".toList).1 :=
  have h := exit_by_count (withTools "\t_ \"a/foo\" // binstub:ignore\n".toList)
    "\t_ \"a/foo\" // binstub:ignore\n".toList "\t_ \"a/foo\" // binstub:ignore".toList
    (by rfl) (by decide) (by decide) ⟨0, by decide⟩
  ⟨h.1, h.2.1, h.2.2 (by
    intro l hl whole m c hf
    have hl1 : l = "\t_ \"a/foo\" // binstub:ignore".toList := by
      have : ScanLines "\t_ \"a/foo\" // binstub:ignore\n".toList =
          ["\t_ \"a/foo\" // binstub:ignore".toList] := by decide
      rw [this] at hl
      simpa using hl
    subst hl1
    have hf1 : FindStringSubmatch lineRe "\t_ \"a/foo\" // binstub:ignore".toList =
        ["\t_ \"a/foo\" // binstub:ignore".toList, "a/foo".toList, "binstub:ignore".toList] := by
      decide
    rw [hf1] at hf
    simp at hf
    obtain ⟨-, -, rfl⟩ := hf
    exact ⟨[], by rfl⟩)⟩

end Binstubs
